import Mathlib

/-
  Verification of the surface-aware placement core of the RoomDesigner
  repository (room furniture planner).

  The development shallowly embeds the relevant source files:
  * the three.js vector / quaternion / plane / ray primitives the code
    calls (namespace `Three`), translated from the three.js sources at
    the revision the repository vendors, with exact real arithmetic in
    place of IEEE doubles;
  * the furniture interaction module (namespace `Furniture`):
    contact-axis detection, surface alignment, upright correction, the
    drag-controller pointer handlers;
  * the undo/redo command stack of `src/scripts/undo.js` (namespace
    `Undo`), over exact rational transform data;
  * the room-surface sampler `raycastRoomSurface` of the scene module
    (namespace `SceneM`).

  Definitions come first, then the theorems settling the claims.
-/

namespace Undo

/-- Exact stand-in for a three.js `Vector3`/`Euler` value stored by a
command; the command classes only `clone`/`copy` these, so the component
type only needs decidable equality. -/
structure Vec3Q where
  x : ℚ
  y : ℚ
  z : ℚ
  deriving DecidableEq, Repr

/-- The mutable scene state touched by the five command classes of
`src/scripts/undo.js`: per-model transform slots (`model.position`,
`model.rotation`, `model.scale`), the drag metadata
(`model.userData.surfaceNormal`, `model.userData.contactAxis`) that no
command touches, membership in the three.js scene graph
(`scene.add`/`scene.remove`), and the `selectableObjects` array. Models
are identified by natural numbers. -/
structure World where
  pos : Nat → Vec3Q
  rot : Nat → Vec3Q
  scl : Nat → Vec3Q
  surfaceNormal : Nat → Option Vec3Q
  contactAxis : Nat → Vec3Q
  scene : Nat → Bool
  selectable : List Nat

/-- The five command kinds, each carrying exactly the state its
constructor clones (`PlaceFurnitureCommand` .. `DeleteFurnitureCommand`). -/
inductive Cmd where
  | place (id : Nat) (p r s : Vec3Q)
  | move (id : Nat) (fromPos toPos : Vec3Q)
  | rotate (id : Nat) (fromRot toRot : Vec3Q)
  | scaleCmd (id : Nat) (fromScale toScale : Vec3Q)
  | delete (id : Nat) (p r s : Vec3Q)
  deriving DecidableEq, Repr

/-- `selectableObjects.push(model)` guarded by `includes` (only done when
absent): JS `push` appends at the end. -/
def pushSelectable (id : Nat) (l : List Nat) : List Nat :=
  if l.contains id then l else l ++ [id]

/-- `selectableObjects.indexOf(model)` followed by `splice(index, 1)` when
found: removes the first occurrence, no-op when absent. -/
def spliceSelectable (id : Nat) (l : List Nat) : List Nat :=
  l.erase id

/-- `command.execute()` for each command class. Hitbox maintenance
(`createFurnitureHitBox` etc.) lives in the scene module and touches no
state tracked here. -/
def execCmd : Cmd → World → World
  | .place id p r s, w =>
      { w with
        pos := Function.update w.pos id p
        rot := Function.update w.rot id r
        scl := Function.update w.scl id s
        scene := Function.update w.scene id true
        selectable := pushSelectable id w.selectable }
  | .move id _ t, w => { w with pos := Function.update w.pos id t }
  | .rotate id _ t, w => { w with rot := Function.update w.rot id t }
  | .scaleCmd id _ t, w => { w with scl := Function.update w.scl id t }
  | .delete id _ _ _, w =>
      { w with
        scene := Function.update w.scene id false
        selectable := spliceSelectable id w.selectable }

/-- `command.undo()` for each command class. -/
def undoCmd : Cmd → World → World
  | .place id _ _ _, w =>
      { w with
        scene := Function.update w.scene id false
        selectable := spliceSelectable id w.selectable }
  | .move id f _, w => { w with pos := Function.update w.pos id f }
  | .rotate id f _, w => { w with rot := Function.update w.rot id f }
  | .scaleCmd id f _, w => { w with scl := Function.update w.scl id f }
  | .delete id p r s, w =>
      { w with
        pos := Function.update w.pos id p
        rot := Function.update w.rot id r
        scl := Function.update w.scl id s
        scene := Function.update w.scene id true
        selectable := pushSelectable id w.selectable }

/-- State of the `UndoManager`: the two stacks (JS arrays, index 0
oldest, `push` appends, `pop` removes the end, `shift` removes the
front) plus the scene state the commands mutate. `maxHistory` is kept as
an explicit parameter of the operations. -/
structure ManagerState where
  world : World
  undoStack : List Cmd
  redoStack : List Cmd

/-- Push one command on the undo stack and trim to `maxHistory`
(`undoStack.push(command); if (length > maxHistory) shift()`). -/
def pushTrim (maxHistory : Nat) (c : Cmd) (us : List Cmd) : List Cmd :=
  let us := us ++ [c]
  if us.length > maxHistory then us.drop 1 else us

/-- `UndoManager.execute(command)`: run the command, push it, clear the
redo stack, trim history. (`updateButtons` only touches the DOM.) -/
def doExecute (maxHistory : Nat) (c : Cmd) (s : ManagerState) : ManagerState :=
  { world := execCmd c s.world
    undoStack := pushTrim maxHistory c s.undoStack
    redoStack := [] }

/-- `UndoManager.record(command)`: push without running. -/
def doRecord (maxHistory : Nat) (c : Cmd) (s : ManagerState) : ManagerState :=
  { world := s.world
    undoStack := pushTrim maxHistory c s.undoStack
    redoStack := [] }

/-- A push through either `execute` or `record`, as selected by the flag. -/
def pushOp (maxHistory : Nat) (useExecute : Bool) (c : Cmd) (s : ManagerState) : ManagerState :=
  if useExecute then doExecute maxHistory c s else doRecord maxHistory c s

/-- `UndoManager.undo()`: no-op on an empty stack, otherwise pop, run
`command.undo()` and push the command on the redo stack. -/
def doUndo (s : ManagerState) : ManagerState :=
  match s.undoStack.getLast? with
  | none => s
  | some c =>
      { world := undoCmd c s.world
        undoStack := s.undoStack.dropLast
        redoStack := s.redoStack ++ [c] }

/-- `UndoManager.redo()`: no-op on an empty stack, otherwise pop from the
redo stack, run `command.execute()` and push back on the undo stack
(note: no `maxHistory` trim on this path in the source). -/
def doRedo (s : ManagerState) : ManagerState :=
  match s.redoStack.getLast? with
  | none => s
  | some c =>
      { world := execCmd c s.world
        undoStack := s.undoStack ++ [c]
        redoStack := s.redoStack.dropLast }

/-- One command is coherent with a world when the before-state it stores
is the state on which it is about to run: its `from`/constructor
snapshots equal the current slots, a placed model is not yet in the
scene, a deleted model is. This is exactly the situation the
constructors create (they `clone` the model's current state). -/
def coherentB (w : World) : Cmd → Bool
  | .place id p r s =>
      w.pos id == p && w.rot id == r && w.scl id == s &&
      !w.scene id && !w.selectable.contains id
  | .move id f _ => w.pos id == f
  | .rotate id f _ => w.rot id == f
  | .scaleCmd id f _ => w.scl id == f
  | .delete id p r s =>
      w.pos id == p && w.rot id == r && w.scl id == s &&
      w.scene id && w.selectable.contains id

/-- A command sequence is coherent when each command is coherent with
the world produced by executing the previous ones. -/
def coherentSeqB (w : World) : List Cmd → Bool
  | [] => true
  | c :: cs => coherentB w c && coherentSeqB (execCmd c w) cs

/-- Two worlds agree on every transform slot, the drag metadata and the
scene graph, and have the same selectable objects as a set (the
`selectableObjects` array order is not part of the claimed state). -/
def WEquiv (w w' : World) : Prop :=
  w.pos = w'.pos ∧ w.rot = w'.rot ∧ w.scl = w'.scl ∧
  w.surfaceNormal = w'.surfaceNormal ∧ w.contactAxis = w'.contactAxis ∧
  w.scene = w'.scene ∧ (∀ x, x ∈ w.selectable ↔ x ∈ w'.selectable)

/-- Run a whole command list through `UndoManager.execute`. -/
def executeAll (maxHistory : Nat) (cs : List Cmd) (s : ManagerState) : ManagerState :=
  cs.foldl (fun t c => doExecute maxHistory c t) s

/-- Execute a command list directly on a world (no manager). -/
def execList (cs : List Cmd) (w : World) : World :=
  cs.foldl (fun w c => execCmd c w) w

/-- Undo a command list directly on a world, newest first. -/
def undoListRev (cs : List Cmd) (w : World) : World :=
  cs.reverse.foldl (fun w c => undoCmd c w) w

/-- A small concrete world used by the concrete witnesses: one model
(id 0) at the origin, in the scene and selectable. -/
def sampleWorld : World :=
  { pos := fun _ => ⟨0, 0, 0⟩
    rot := fun _ => ⟨0, 0, 0⟩
    scl := fun _ => ⟨1, 1, 1⟩
    surfaceNormal := fun _ => none
    contactAxis := fun _ => ⟨0, 1, 0⟩
    scene := fun i => i == 0
    selectable := [0] }

/-- A manager over `sampleWorld` with empty history. -/
def sampleManager : ManagerState :=
  { world := sampleWorld, undoStack := [], redoStack := [] }

/-- The command list of the history-overflow counterexample: 51 coherent
move commands shuttling model 0 between the origin and `x = 1` (an odd
number of moves, so the net displacement is nonzero). -/
def overflowCmds : List Cmd :=
  (List.range 51).map (fun i =>
    if i % 2 = 0 then Cmd.move 0 ⟨0, 0, 0⟩ ⟨1, 0, 0⟩
    else Cmd.move 0 ⟨1, 0, 0⟩ ⟨0, 0, 0⟩)

/-- Two pushes (one `execute`, one `record`) used by a concrete witness. -/
def samplePushes : List (Bool × Cmd) :=
  [(true, Cmd.move 0 ⟨0, 0, 0⟩ ⟨1, 0, 0⟩), (false, Cmd.move 0 ⟨1, 0, 0⟩ ⟨2, 0, 0⟩)]

end Undo

noncomputable section

namespace Three

/-- `Number.EPSILON`, the threshold `Quaternion.setFromUnitVectors` uses
to detect (nearly) opposite input vectors. -/
def NumberEPSILON : ℝ := 1 / 2 ^ 52

/-- Three.js `Vector3` with exact real coordinates. -/
@[ext]
structure Vector3 where
  x : ℝ
  y : ℝ
  z : ℝ

namespace Vector3

instance : Zero Vector3 := ⟨⟨0, 0, 0⟩⟩

instance : Add Vector3 := ⟨fun a b => ⟨a.x + b.x, a.y + b.y, a.z + b.z⟩⟩

instance : Neg Vector3 := ⟨fun a => ⟨-a.x, -a.y, -a.z⟩⟩

instance : Sub Vector3 := ⟨fun a b => ⟨a.x - b.x, a.y - b.y, a.z - b.z⟩⟩

instance : SMul ℝ Vector3 := ⟨fun s a => ⟨s * a.x, s * a.y, s * a.z⟩⟩

/-- `Vector3.dot`. -/
def dot (a b : Vector3) : ℝ := a.x * b.x + a.y * b.y + a.z * b.z

/-- `Vector3.crossVectors`. -/
def cross (a b : Vector3) : Vector3 :=
  ⟨a.y * b.z - a.z * b.y, a.z * b.x - a.x * b.z, a.x * b.y - a.y * b.x⟩

/-- `Vector3.lengthSq`. -/
def lengthSq (a : Vector3) : ℝ := a.x * a.x + a.y * a.y + a.z * a.z

/-- `Vector3.length`. -/
def length (a : Vector3) : ℝ := Real.sqrt a.lengthSq

/-- `Vector3.multiplyScalar`. -/
def multiplyScalar (s : ℝ) (a : Vector3) : Vector3 := s • a

/-- `Vector3.divideScalar(s)` is `multiplyScalar(1/s)` in the three.js
source. -/
def divideScalar (s : ℝ) (a : Vector3) : Vector3 := multiplyScalar (1 / s) a

/-- `Vector3.normalize`: `divideScalar(length() || 1)` — a zero vector is
left unchanged. -/
def normalize (a : Vector3) : Vector3 :=
  divideScalar (if a.length = 0 then 1 else a.length) a

/-- `Vector3.distanceTo`. -/
def distanceTo (a b : Vector3) : ℝ := (a - b).length

/-- `Vector3.applyQuaternion` body, as a function of the quaternion
components (the quaternion type is declared below): with
`t = 2 * cross(q.xyz, v)`, the result is `v + q.w * t + cross(q.xyz, t)`.
Valid as a rotation only for unit quaternions, which is how the
repository uses it. -/
def applyQuatComponents (qx qy qz qw : ℝ) (v : Vector3) : Vector3 :=
  let tx := 2 * (qy * v.z - qz * v.y)
  let ty := 2 * (qz * v.x - qx * v.z)
  let tz := 2 * (qx * v.y - qy * v.x)
  ⟨v.x + qw * tx + qy * tz - qz * ty,
   v.y + qw * ty + qz * tx - qx * tz,
   v.z + qw * tz + qx * ty - qy * tx⟩

end Vector3

/-- Three.js `Quaternion` (x, y, z, w). -/
@[ext]
structure Quaternion where
  x : ℝ
  y : ℝ
  z : ℝ
  w : ℝ

namespace Quaternion

/-- The identity quaternion, the value `new THREE.Quaternion()` starts at. -/
def one : Quaternion := ⟨0, 0, 0, 1⟩

/-- `Quaternion.lengthSq`. -/
def normSq (q : Quaternion) : ℝ := q.x * q.x + q.y * q.y + q.z * q.z + q.w * q.w

/-- `Quaternion.length`. -/
def length (q : Quaternion) : ℝ := Real.sqrt q.normSq

/-- `Quaternion.normalize`: a zero quaternion becomes the identity,
otherwise every component is divided by the length. -/
def normalizeQ (q : Quaternion) : Quaternion :=
  if q.length = 0 then one
  else ⟨q.x / q.length, q.y / q.length, q.z / q.length, q.w / q.length⟩

/-- `Quaternion.multiplyQuaternions(a, b)` (Hamilton product).
`a.premultiply(b)` is `mul b a`. -/
def mul (a b : Quaternion) : Quaternion :=
  ⟨a.x * b.w + a.w * b.x + a.y * b.z - a.z * b.y,
   a.y * b.w + a.w * b.y + a.z * b.x - a.x * b.z,
   a.z * b.w + a.w * b.z + a.x * b.y - a.y * b.x,
   a.w * b.w - a.x * b.x - a.y * b.y - a.z * b.z⟩

/-- `Quaternion.setFromAxisAngle(axis, angle)` — assumes a unit axis. -/
def setFromAxisAngle (axis : Vector3) (angle : ℝ) : Quaternion :=
  ⟨axis.x * Real.sin (angle / 2), axis.y * Real.sin (angle / 2),
   axis.z * Real.sin (angle / 2), Real.cos (angle / 2)⟩

/-- `Quaternion.setFromUnitVectors(vFrom, vTo)`: the half-way quaternion
`(cross(vFrom, vTo), 1 + dot)` normalized, with a fallback 180-degree
rotation about an axis orthogonal to `vFrom` when the inputs are
(nearly) opposite (`r < Number.EPSILON`). -/
def setFromUnitVectors (vFrom vTo : Vector3) : Quaternion :=
  let r := Vector3.dot vFrom vTo + 1
  normalizeQ
    (if r < NumberEPSILON then
      (if |vFrom.x| > |vFrom.z| then ⟨-vFrom.y, vFrom.x, 0, 0⟩
       else ⟨0, -vFrom.z, vFrom.y, 0⟩)
     else
      ⟨vFrom.y * vTo.z - vFrom.z * vTo.y,
       vFrom.z * vTo.x - vFrom.x * vTo.z,
       vFrom.x * vTo.y - vFrom.y * vTo.x, r⟩)

end Quaternion

/-- `Vector3.applyQuaternion`. -/
def Vector3.applyQuaternion (v : Vector3) (q : Quaternion) : Vector3 :=
  Vector3.applyQuatComponents q.x q.y q.z q.w v

/-- The conjugation (sandwich) action `Im (q * v * conj q)` of a
quaternion on a pure vector, written out componentwise; proof-side
companion of `Vector3.applyQuaternion`, to which it is equal on unit
quaternions. -/
def Quaternion.sandwichAct (q : Quaternion) (v : Vector3) : Vector3 :=
  let s : Vector3 := ⟨q.x, q.y, q.z⟩
  (2 * Vector3.dot s v) • s +
    ((q.w * q.w - s.lengthSq) • v + (2 * q.w) • Vector3.cross s v)

/-- Three.js `Plane` (unit normal plus constant; points `p` on the plane
satisfy `dot(normal, p) + constant = 0`). -/
structure Plane where
  normal : Vector3
  constant : ℝ

/-- `Plane.setFromNormalAndCoplanarPoint`. -/
def Plane.setFromNormalAndCoplanarPoint (n p : Vector3) : Plane :=
  ⟨n, -(Vector3.dot p n)⟩

/-- `Plane.distanceToPoint`. -/
def Plane.distanceToPoint (pl : Plane) (p : Vector3) : ℝ :=
  Vector3.dot pl.normal p + pl.constant

/-- Three.js `Ray`. -/
structure Ray where
  origin : Vector3
  direction : Vector3

/-- `Ray.at`. -/
def Ray.at (r : Ray) (t : ℝ) : Vector3 := r.origin + t • r.direction

/-- `Ray.distanceToPlane`: `null` when the ray is parallel to (and off)
the plane or points away from it. -/
def Ray.distanceToPlane (r : Ray) (pl : Plane) : Option ℝ :=
  let denom := Vector3.dot pl.normal r.direction
  if denom = 0 then
    (if pl.distanceToPoint r.origin = 0 then some 0 else none)
  else
    let t := -(Vector3.dot r.origin pl.normal + pl.constant) / denom
    if 0 ≤ t then some t else none

/-- `Ray.intersectPlane` (the `target` mutation is made explicit by the
callers below). -/
def Ray.intersectPlane (r : Ray) (pl : Plane) : Option Vector3 :=
  (r.distanceToPlane pl).map r.at

end Three

namespace Furniture

open Three Classical

/-- `SURFACE_NORMAL_TOLERANCE = 0.966` (cosine of roughly 15 degrees). -/
def SURFACE_NORMAL_TOLERANCE : ℝ := 0.966

/-- `DRAG_THRESHOLD_PIXELS = 5`. -/
def DRAG_THRESHOLD_PIXELS : ℝ := 5

/-- `NORMAL_HISTORY_SIZE = 10`. -/
def NORMAL_HISTORY_SIZE : Nat := 10

/-- `CARDINAL_AXES`, in source order: +X, -X, +Y, -Y, +Z, -Z. -/
def CARDINAL_AXES : List Vector3 :=
  [⟨1, 0, 0⟩, ⟨-1, 0, 0⟩, ⟨0, 1, 0⟩, ⟨0, -1, 0⟩, ⟨0, 0, 1⟩, ⟨0, 0, -1⟩]

/-- `DEFAULT_CONTACT_AXIS = (0, 1, 0)`. -/
def DEFAULT_CONTACT_AXIS : Vector3 := ⟨0, 1, 0⟩

/-- The loop body of `detectContactAxis`: fold over the candidate axes
keeping the best axis and best dot product so far, replacing them only
on a strict improvement (`dot > bestDot`). -/
def detectLoop (f : Vector3 → ℝ) : List Vector3 → Vector3 → ℝ → Vector3
  | [], best, _ => best
  | a :: rest, best, bestDot =>
      if f a > bestDot then detectLoop f rest a (f a)
      else detectLoop f rest best bestDot

/-- `detectContactAxis(model, surfaceNormal, quaternionOverride)`:
among the six cardinal axes, the one whose image under the given
rotation (the override, or the model's quaternion) has the largest dot
product with the surface normal; `bestDot` starts at `-2` and `bestAxis`
at the default contact axis. -/
def detectContactAxis (quat : Quaternion) (surfaceNormal : Vector3) : Vector3 :=
  detectLoop (fun localAxis => Vector3.dot (localAxis.applyQuaternion quat) surfaceNormal)
    CARDINAL_AXES DEFAULT_CONTACT_AXIS (-2)

/-- `alignContactAxisToSurface(model, surfaceNormal, contactAxis)`:
rotate the contact axis's current world direction onto the surface
normal and premultiply the correction into the model's quaternion. -/
def alignContactAxisToSurface (q : Quaternion) (surfaceNormal contactAxis : Vector3) :
    Quaternion :=
  let normalizedNormal := surfaceNormal.normalize
  let normalizedAxis := contactAxis.normalize
  let currentWorldContactDir := (normalizedAxis.applyQuaternion q).normalize
  let correctionQuat := Quaternion.setFromUnitVectors currentWorldContactDir normalizedNormal
  correctionQuat.mul q

/-- `applyUprightCorrection(model, surfaceNormal)`: skip on (nearly)
horizontal surfaces, project world-up and the model's world Y onto the
plane perpendicular to the normal, measure the signed angle between the
projections and, if it is large enough, premultiply that rotation about
the surface normal. -/
def applyUprightCorrection (q : Quaternion) (surfaceNormal : Vector3) : Quaternion :=
  let normalizedNormal := surfaceNormal.normalize
  if |normalizedNormal.y| > 0.9 then q
  else
    let modelY := ((⟨0, 1, 0⟩ : Vector3).applyQuaternion q).normalize
    let worldUp : Vector3 := ⟨0, 1, 0⟩
    let projectedWorldUp :=
      worldUp - (Vector3.dot worldUp normalizedNormal) • normalizedNormal
    if projectedWorldUp.length < 0.001 then q
    else
      let projectedWorldUp := projectedWorldUp.normalize
      let projectedModelY :=
        modelY - (Vector3.dot modelY normalizedNormal) • normalizedNormal
      if projectedModelY.length < 0.001 then q
      else
        let projectedModelY := projectedModelY.normalize
        let angle0 :=
          Real.arccos (max (-1) (min 1 (Vector3.dot projectedModelY projectedWorldUp)))
        let angle :=
          if Vector3.dot (Vector3.cross projectedModelY projectedWorldUp) normalizedNormal < 0
          then -angle0 else angle0
        if |angle| > 0.001 then
          (Quaternion.setFromAxisAngle normalizedNormal angle).mul q
        else q

/-- The local `projectedWorldUp` of `applyUprightCorrection` (for a unit
normal, where `surfaceNormal.normalize = surfaceNormal`): world up
projected onto the plane perpendicular to the surface normal. -/
def projectedWorldUp (n : Vector3) : Vector3 :=
  (⟨0, 1, 0⟩ : Vector3) - (Vector3.dot ⟨0, 1, 0⟩ n) • n

/-- The local `modelY` of `applyUprightCorrection`: the model's Y axis in
world space. -/
def modelYOf (q : Quaternion) : Vector3 :=
  ((⟨0, 1, 0⟩ : Vector3).applyQuaternion q).normalize

/-- The local `projectedModelY` of `applyUprightCorrection` (before its
normalization). -/
def projectedModelY (q : Quaternion) (n : Vector3) : Vector3 :=
  modelYOf q - (Vector3.dot (modelYOf q) n) • n

/-- The local signed `angle` of `applyUprightCorrection`. -/
def uprightAngle (q : Quaternion) (n : Vector3) : ℝ :=
  let pmy := (projectedModelY q n).normalize
  let pwu := (projectedWorldUp n).normalize
  let angle0 := Real.arccos (max (-1) (min 1 (Vector3.dot pmy pwu)))
  if Vector3.dot (Vector3.cross pmy pwu) n < 0 then -angle0 else angle0

/-- `alignToSurface(model, surfaceNormal, contactAxis)`: resolve the axis
through the JS `contactAxis || model.userData.contactAxis ||
DEFAULT_CONTACT_AXIS` chain, then step 1 (contact alignment) followed by
step 2 (upright correction). -/
def alignToSurface (q : Quaternion) (userDataContactAxis : Option Vector3)
    (surfaceNormal : Vector3) (contactAxis : Option Vector3) : Quaternion :=
  let axis := (contactAxis.orElse (fun _ => userDataContactAxis)).getD DEFAULT_CONTACT_AXIS
  applyUprightCorrection (alignContactAxisToSurface q surfaceNormal axis) surfaceNormal

/-- `addNormalToHistory(normal)`: push, trim to the last
`NORMAL_HISTORY_SIZE` entries, return the renormalized average. Returns
the new history together with the averaged normal. -/
def addNormalToHistory (history : List Vector3) (normal : Vector3) :
    List Vector3 × Vector3 :=
  let history := history ++ [normal]
  let history := if history.length > NORMAL_HISTORY_SIZE then history.drop 1 else history
  let avg := history.foldl (fun acc n => acc + n) (0 : Vector3)
  (history, (avg.divideScalar (history.length : ℝ)).normalize)

/-- `calculateBoundingBoxOffset(model, surfaceNormal)`: with the model's
local-space bounding box (the `Box3.setFromObject` result with the model
moved to the origin, supplied here as the box corners), pick the corner
facing the surface and return `-(contactPoint . surfaceNormal)`. -/
def calculateBoundingBoxOffset (boxMin boxMax surfaceNormal : Vector3) : ℝ :=
  let contactPoint : Vector3 :=
    ⟨if 0 ≤ surfaceNormal.x then boxMin.x else boxMax.x,
     if 0 ≤ surfaceNormal.y then boxMin.y else boxMax.y,
     if 0 ≤ surfaceNormal.z then boxMin.z else boxMax.z⟩
  let offset := -(Vector3.dot contactPoint surfaceNormal)
  offset

/-- The per-model state the drag controller reads and writes: the
three.js transform, the `userData` surface fields, and the local-space
bounding box (owned by the external mesh, constant during a drag). -/
structure ObjectState where
  position : Vector3
  quaternion : Quaternion
  surfaceNormal : Option Vector3
  contactAxis : Option Vector3
  boxMin : Vector3
  boxMax : Vector3

/-- A command as recorded into the global `undoManager` by the
interaction module (only the data relevant to the claims). -/
inductive RecordedCmd where
  | moveCmd (fromPos toPos : Vector3)
  | rotateCmd (fromRot toRot : Quaternion)
  | deleteCmd

/-- The module-level interaction state of the furniture module plus the
single furniture object the current interaction touches (`hovered` means
`hoveredObject` points at that object, else `hoveredObject === null`). -/
structure InteractionState where
  obj : ObjectState
  hovered : Bool
  selected : Bool
  isDragging : Bool
  mouseDownPosition : Option (ℝ × ℝ)
  dragStartPosition : Option Vector3
  activePointerId : Option Nat
  dragOffset : Vector3
  dragStartQuaternion : Quaternion
  spawnSurfaceNormal : Vector3
  lastValidPosition : Vector3
  lastValidNormal : Vector3
  dragPlane : Plane
  normalHistory : List Vector3
  lastClickPosition : Option Vector3
  lastClickSurfaceNormal : Option Vector3
  transformStartPosition : Option Vector3
  recorded : List RecordedCmd

/-- A mesh intersection as returned by the external
`Raycaster.intersectObject` call: hit point, and the world-space face
normal (`face.normal` pushed through `matrixWorld`; `none` when the hit
carries no face). -/
structure MeshHit where
  point : Vector3
  face : Option Vector3

/-- A `pointerdown` event together with the results of the external
queries the handler makes: modal state, the `raycastFurniture` hit point
on the tracked object (if any) and the `raycastRoomSurface` result. -/
structure DownEvent where
  pointerId : Nat
  isPrimary : Bool
  isNonLeftMouseButton : Bool
  modalOpen : Bool
  x : ℝ
  y : ℝ
  furnitureHitPoint : Option Vector3
  surfaceHit : Option (Vector3 × Vector3)

/-- A `pointermove` event plus its environment: the camera ray through
the pointer, whether the transform gizmo is attached to the hovered
object, whether a room mesh exists, and the intersection list the
surface raycast returns against it. -/
structure MoveEvent where
  pointerId : Nat
  modalOpen : Bool
  x : ℝ
  y : ℝ
  transformAttachedToHovered : Bool
  pointerRay : Ray
  roomMeshPresent : Bool
  meshHits : List MeshHit

/-- A `pointerup` event (the lighting-mode flag guards only the modal
callback branch). -/
structure UpEvent where
  pointerId : Nat
  modalOpen : Bool
  x : ℝ
  y : ℝ
  lightingDirectionMode : Bool

/-- `onPointerDown`. -/
def onPointerDown (s : InteractionState) (e : DownEvent) : InteractionState :=
  if !e.isPrimary then s
  else if e.isNonLeftMouseButton then s
  else if e.modalOpen then s
  else
    let s := { s with activePointerId := some e.pointerId,
                      mouseDownPosition := some (e.x, e.y) }
    match e.furnitureHitPoint with
    | some hitPoint =>
        let spawn := s.obj.surfaceNormal.getD ⟨0, 1, 0⟩
        let contactAxis :=
          match s.obj.surfaceNormal with
          | some n => some (detectContactAxis s.obj.quaternion n)
          | none => s.obj.contactAxis
        { s with
          hovered := true
          dragStartPosition := some s.obj.position
          dragOffset := s.obj.position - hitPoint
          dragStartQuaternion := s.obj.quaternion
          spawnSurfaceNormal := spawn
          dragPlane := Plane.setFromNormalAndCoplanarPoint spawn hitPoint
          lastValidPosition := s.obj.position
          lastValidNormal := spawn
          normalHistory := []
          obj := { s.obj with contactAxis := contactAxis } }
    | none =>
        match e.surfaceHit with
        | some (p, n) =>
            { s with lastClickPosition := some p, lastClickSurfaceNormal := some n }
        | none => s

/-- The world-space hit normal used by the drag surface check:
`hit.face` transformed and normalized, else a clone of the spawn
normal. -/
def hitNormalOf (hit : MeshHit) (spawnNormal : Vector3) : Vector3 :=
  match hit.face with
  | some n => n.normalize
  | none => spawnNormal

/-- The body of `onPointerMove` once a drag is active: drag-plane
intersection, surface raycast toward the spawn surface, tolerance check,
smoothing, repositioning and re-alignment, or falling back to the last
valid position. -/
def dragMoveBody (s : InteractionState) (e : MoveEvent) : InteractionState :=
  match (e.pointerRay.intersectPlane s.dragPlane) with
  | none => s
  | some planePoint =>
      let _candidatePosition := planePoint + s.dragOffset
      if !e.roomMeshPresent then s
      else
        match e.meshHits with
        | [] => { s with obj := { s.obj with position := s.lastValidPosition } }
        | hit :: _ =>
            let hitNormal := hitNormalOf hit s.spawnSurfaceNormal
            if SURFACE_NORMAL_TOLERANCE ≤ Vector3.dot hitNormal s.spawnSurfaceNormal then
              let hn := addNormalToHistory s.normalHistory hitNormal
              let smoothedNormal := hn.2
              let bbOffset := calculateBoundingBoxOffset s.obj.boxMin s.obj.boxMax smoothedNormal
              let newPos := hit.point + bbOffset • smoothedNormal
              let contactAxis := s.obj.contactAxis.getD DEFAULT_CONTACT_AXIS
              let q1 := alignContactAxisToSurface s.obj.quaternion smoothedNormal contactAxis
              let q2 := applyUprightCorrection q1 smoothedNormal
              { s with
                normalHistory := hn.1
                obj := { s.obj with
                          position := newPos
                          surfaceNormal := some smoothedNormal
                          quaternion := q2 }
                lastValidPosition := newPos
                lastValidNormal := smoothedNormal }
            else
              { s with obj := { s.obj with position := s.lastValidPosition } }

/-- `onPointerMove`: pointer-id and guard checks, the drag-threshold
transition, then the active-drag body. The candidate position
(`planePoint + dragOffset`) determines where the external surface
raycast is cast from; the resulting intersection list arrives in the
event record. -/
def onPointerMove (s : InteractionState) (e : MoveEvent) : InteractionState :=
  if s.activePointerId ≠ none ∧ some e.pointerId ≠ s.activePointerId then s
  else if s.mouseDownPosition = none ∨ !s.hovered then s
  else if e.modalOpen then s
  else
    match s.mouseDownPosition with
    | none => s
    | some (mx, my) =>
        let distance := Real.sqrt ((e.x - mx) ^ 2 + (e.y - my) ^ 2)
        if !s.isDragging ∧ distance > DRAG_THRESHOLD_PIXELS ∧ e.transformAttachedToHovered then
          s
        else
          let s :=
            if !s.isDragging ∧ distance > DRAG_THRESHOLD_PIXELS then
              { s with isDragging := true }
            else s
          if s.isDragging ∧ s.hovered then dragMoveBody s e else s

/-- `resetMouseState`. -/
def resetMouseState (s : InteractionState) : InteractionState :=
  { s with
    isDragging := false
    mouseDownPosition := none
    dragStartPosition := none
    activePointerId := none
    normalHistory := []
    hovered := false }

/-- `selectFurniture` (state effects only: gizmo menu and transform
controls live outside this core). -/
def selectFurniture (s : InteractionState) : InteractionState :=
  if s.selected then s
  else
    { s with
      selected := true
      transformStartPosition := some s.obj.position }

/-- `deselectFurniture`. -/
def deselectFurniture (s : InteractionState) : InteractionState :=
  if !s.selected then s
  else { s with selected := false, transformStartPosition := none }

/-- `onPointerUp`: on a completed drag whose net position changed, record
a `MoveFurnitureCommand`; below the threshold treat the gesture as a
click (select / deselect / open modal); finally reset the per-drag
state. -/
def onPointerUp (s : InteractionState) (e : UpEvent) : InteractionState :=
  if s.activePointerId ≠ none ∧ some e.pointerId ≠ s.activePointerId then s
  else if e.modalOpen then resetMouseState s
  else
    let s :=
      if s.isDragging ∧ s.hovered ∧ s.dragStartPosition ≠ none then
        match s.dragStartPosition with
        | some startPos =>
            if startPos ≠ s.obj.position then
              { s with recorded := s.recorded ++ [RecordedCmd.moveCmd startPos s.obj.position] }
            else s
        | none => s
      else
        match s.mouseDownPosition with
        | some (mx, my) =>
            let distance := Real.sqrt ((e.x - mx) ^ 2 + (e.y - my) ^ 2)
            if s.hovered then
              if distance ≤ DRAG_THRESHOLD_PIXELS then selectFurniture s else s
            else
              if distance ≤ DRAG_THRESHOLD_PIXELS then
                (if s.selected then deselectFurniture s else s)
              else s
        | none => s
    resetMouseState s

/-- One pointer-down / pointer-up pair with an arbitrary burst of
intermediate pointer-move events. -/
def runPointerPair (s : InteractionState) (d : DownEvent) (moves : List MoveEvent)
    (u : UpEvent) : InteractionState :=
  onPointerUp (moves.foldl onPointerMove (onPointerDown s d)) u

/-- A concrete furniture object used by the concrete witnesses. -/
def sampleObject : ObjectState :=
  { position := ⟨0, 0, 0⟩
    quaternion := Quaternion.one
    surfaceNormal := some ⟨0, 1, 0⟩
    contactAxis := some ⟨0, 1, 0⟩
    boxMin := ⟨-1, 0, -1⟩
    boxMax := ⟨1, 1, 1⟩ }

/-- A concrete mid-drag interaction state over the floor plane. -/
def sampleDragState : InteractionState :=
  { obj := sampleObject
    hovered := true
    selected := false
    isDragging := true
    mouseDownPosition := some (0, 0)
    dragStartPosition := some ⟨0, 0, 0⟩
    activePointerId := some 1
    dragOffset := ⟨0, 0, 0⟩
    dragStartQuaternion := Quaternion.one
    spawnSurfaceNormal := ⟨0, 1, 0⟩
    lastValidPosition := ⟨2, 0, 2⟩
    lastValidNormal := ⟨0, 1, 0⟩
    dragPlane := ⟨⟨0, 1, 0⟩, 0⟩
    normalHistory := []
    lastClickPosition := none
    lastClickSurfaceNormal := none
    transformStartPosition := none
    recorded := [] }

/-- A concrete move event whose downward surface raycast finds no hit. -/
def sampleMissMoveEvent : MoveEvent :=
  { pointerId := 1
    modalOpen := false
    x := 10
    y := 0
    transformAttachedToHovered := false
    pointerRay := { origin := ⟨0, 1, 0⟩, direction := ⟨0, -1, 0⟩ }
    roomMeshPresent := true
    meshHits := [] }

/-- A concrete idle interaction state (no active pointer). -/
def sampleIdleState : InteractionState :=
  { sampleDragState with
    isDragging := false
    mouseDownPosition := none
    activePointerId := none
    hovered := false }

/-- A concrete pointer-down event hitting the furniture object. -/
def sampleDownEvent : DownEvent :=
  { pointerId := 1
    isPrimary := true
    isNonLeftMouseButton := false
    modalOpen := false
    x := 0
    y := 0
    furnitureHitPoint := some ⟨0, 0, 0⟩
    surfaceHit := none }

/-- A concrete pointer-up event a short distance from the down point. -/
def sampleUpEvent : UpEvent :=
  { pointerId := 1
    modalOpen := false
    x := 1
    y := 1
    lightingDirectionMode := false }

end Furniture

namespace SceneM

open Three Classical

/-- The record `raycastRoomSurface` returns: hit point, (averaged) unit
normal, distance, the raw `face` (kept as its world normal; `none` on
the plane fallback) and the sample count (absent on the fallback). -/
structure SurfaceHit where
  point : Vector3
  normal : Vector3
  distance : ℝ
  face : Option Vector3
  sampleCount : Option Nat

/-- One entry of the list the external `Raycaster.intersectObject(roomMesh)`
call returns: point, distance, and the face normal already pushed
through `matrixWorld` (the source then calls `.normalize()` on it). -/
structure MeshIntersection where
  point : Vector3
  distance : ℝ
  faceNormalWorld : Vector3

/-- Environment of one `raycastRoomSurface` call: the camera ray through
the pointer, the camera position, whether a room mesh exists, the
primary intersection list, and per sample index the world face normal of
the first intersection of the offset sample ray (`none` when that ray
misses). -/
structure RaycastEnv where
  ray : Ray
  cameraPosition : Vector3
  roomMeshPresent : Bool
  primaryIntersections : List MeshIntersection
  sampleHit : Nat → Option Vector3

/-- The ground-plane fallback at the bottom of `raycastRoomSurface`: the
`target` vector starts at `(0,0,0)` and `Ray.intersectPlane` leaves it
unmodified on a miss; the subsequent `if (intersectPoint)` tests the
target object itself, which is always truthy, so a hit record is
produced unconditionally and the trailing `return null` is unreachable. -/
def fallbackFloorHit (env : RaycastEnv) : SurfaceHit :=
  let floorPlane : Plane := ⟨⟨0, 1, 0⟩, 0⟩
  let intersectPoint := (env.ray.intersectPlane floorPlane).getD 0
  { point := intersectPoint
    normal := ⟨0, 1, 0⟩
    distance := intersectPoint.distanceTo env.cameraPosition
    face := none
    sampleCount := none }

/-- `raycastRoomSurface(event, options)` with
`options = { averagingRadius = 10, sampleCount = 8 }`: primary ray
against the room mesh; on a hit either the fast path
(`sampleCount <= 0`) or multi-sample normal averaging; otherwise the
internal ground-plane fallback. -/
def raycastRoomSurface (env : RaycastEnv) (sampleCount : Nat := 8) : Option SurfaceHit :=
  if env.roomMeshPresent then
    match env.primaryIntersections with
    | hit :: _ =>
        let hitPoint := hit.point
        let primaryNormal := hit.faceNormalWorld.normalize
        if sampleCount ≤ 0 then
          some { point := hitPoint
                 normal := primaryNormal
                 distance := hit.distance
                 face := some hit.faceNormalWorld
                 sampleCount := some 1 }
        else
          let sampled :=
            (List.range sampleCount).filterMap
              (fun i => (env.sampleHit i).map Vector3.normalize)
          let normals := primaryNormal :: sampled
          let averagedNormal :=
            ((normals.foldl (fun acc n => acc + n) (0 : Vector3)).divideScalar
              (normals.length : ℝ)).normalize
          some { point := hitPoint
                 normal := averagedNormal
                 distance := hit.distance
                 face := some hit.faceNormalWorld
                 sampleCount := some normals.length }
    | [] => some (fallbackFloorHit env)
  else some (fallbackFloorHit env)

/-- The raycast finds no intersection with the room mesh (no mesh, or an
empty intersection list). -/
def noMeshIntersection (env : RaycastEnv) : Prop :=
  env.roomMeshPresent = false ∨ env.primaryIntersections = []

/-- A concrete environment in which the raycast finds no room-mesh
intersection: no room mesh at all, the camera at `(0,5,0)` looking
straight down. -/
def sampleNoMeshEnv : RaycastEnv :=
  { ray := { origin := ⟨0, 5, 0⟩, direction := ⟨0, -1, 0⟩ }
    cameraPosition := ⟨0, 5, 0⟩
    roomMeshPresent := false
    primaryIntersections := []
    sampleHit := fun _ => none }

end SceneM

end

/-!  Theorems.  First the command-stack claims. -/

namespace Undo

theorem pushOp_undoStack (M : Nat) (b : Bool) (c : Cmd) (t : ManagerState) :
    (pushOp M b c t).undoStack = pushTrim M c t.undoStack := by
  cases b <;> rfl

theorem pushOp_redoStack (M : Nat) (b : Bool) (c : Cmd) (t : ManagerState) :
    (pushOp M b c t).redoStack = [] := by
  cases b <;> rfl

theorem foldl_pushTrim (M : Nat) :
    ∀ (cs : List Cmd) (us : List Cmd), us.length ≤ M →
      cs.foldl (fun u c => pushTrim M c u) us =
        (us ++ cs).drop ((us ++ cs).length - M)
  | [], us, h => by
      simp [Nat.sub_eq_zero_of_le h]
  | c :: ds, us, h => by
      rw [List.foldl_cons]
      by_cases hc : us.length + 1 ≤ M
      · have hstep : pushTrim M c us = us ++ [c] := by
          unfold pushTrim
          simp only [List.length_append, List.length_cons, List.length_nil]
          rw [if_neg (by omega)]
        rw [hstep, foldl_pushTrim M ds (us ++ [c])
          (by simp only [List.length_append, List.length_cons, List.length_nil]; omega)]
        simp [List.append_assoc]
      · have hM : us.length = M := by omega
        have hstep : pushTrim M c us = (us ++ [c]).drop 1 := by
          unfold pushTrim
          simp only [List.length_append, List.length_cons, List.length_nil]
          rw [if_pos (by omega)]
        rw [hstep, foldl_pushTrim M ds _
          (by simp only [List.length_drop, List.length_append, List.length_cons,
                List.length_nil]; omega)]
        rw [← List.drop_append_of_le_length
          (by simp only [List.length_append, List.length_cons, List.length_nil]; omega)]
        rw [List.drop_drop]
        have hrw : (us ++ [c]) ++ ds = us ++ c :: ds := by simp
        rw [hrw]
        congr 1
        simp only [List.length_drop, List.length_append, List.length_cons, List.length_nil]
        omega

theorem foldl_pushOp_undoStack (M : Nat) (ps : List (Bool × Cmd)) :
    ∀ s : ManagerState, (ps.foldl (fun t bc => pushOp M bc.1 bc.2 t) s).undoStack =
      (ps.map Prod.snd).foldl (fun u c => pushTrim M c u) s.undoStack := by
  induction ps with
  | nil => intro s; rfl
  | cons p ps ih =>
      intro s
      rw [List.foldl_cons, List.map_cons, List.foldl_cons, ih]
      rw [pushOp_undoStack]

/-- C5: with maximum history length `maxHistory`, pushing
`maxHistory + 1` commands (through `execute()` or `record()`, in any
mix) onto a stack with empty undo history leaves exactly `maxHistory`
entries, namely all pushed commands except the oldest; and every push
through either entry point empties the redo stack. -/
theorem c5_history_bound (M : Nat) (ps : List (Bool × Cmd)) (s : ManagerState)
    (h0 : s.undoStack = []) (hlen : ps.length = M + 1) :
    (ps.foldl (fun t bc => pushOp M bc.1 bc.2 t) s).undoStack = (ps.map Prod.snd).drop 1 ∧
    (ps.foldl (fun t bc => pushOp M bc.1 bc.2 t) s).undoStack.length = M ∧
    ∀ (b : Bool) (c : Cmd) (t : ManagerState), (pushOp M b c t).redoStack = [] := by
  have h1 : (ps.foldl (fun t bc => pushOp M bc.1 bc.2 t) s).undoStack =
      (ps.map Prod.snd).drop 1 := by
    rw [foldl_pushOp_undoStack, h0, foldl_pushTrim M _ [] (by simp)]
    simp [hlen]
  refine ⟨h1, ?_, fun b c t => pushOp_redoStack M b c t⟩
  rw [h1]
  simp [hlen]

/-- Concrete instance of C5: two pushes with `maxHistory = 1`. -/
theorem c5_history_bound_witness :
    sampleManager.undoStack = [] ∧ samplePushes.length = 1 + 1 ∧
    ((samplePushes.foldl (fun t bc => pushOp 1 bc.1 bc.2 t) sampleManager).undoStack =
        (samplePushes.map Prod.snd).drop 1 ∧
      (samplePushes.foldl (fun t bc => pushOp 1 bc.1 bc.2 t) sampleManager).undoStack.length = 1 ∧
      ∀ (b : Bool) (c : Cmd) (t : ManagerState), (pushOp 1 b c t).redoStack = []) :=
  ⟨rfl, rfl, c5_history_bound 1 samplePushes sampleManager rfl rfl⟩

/-- C10: `undo()` on an empty undo stack and `redo()` on an empty redo
stack leave the manager state — stacks and world — entirely unchanged
(no command's `execute()`/`undo()` runs). -/
theorem c10_empty_stack_noop (s : ManagerState) :
    (s.undoStack = [] → doUndo s = s) ∧ (s.redoStack = [] → doRedo s = s) := by
  constructor
  · intro h
    unfold doUndo
    rw [h]
    rfl
  · intro h
    unfold doRedo
    rw [h]
    rfl

/-- Concrete instance of C10 on the sample manager. -/
theorem c10_empty_stack_noop_witness :
    sampleManager.undoStack = [] ∧ sampleManager.redoStack = [] ∧
    doUndo sampleManager = sampleManager ∧ doRedo sampleManager = sampleManager :=
  ⟨rfl, rfl, (c10_empty_stack_noop sampleManager).1 rfl,
    (c10_empty_stack_noop sampleManager).2 rfl⟩

/-- C9: `MoveFurnitureCommand.execute()`/`undo()` copy the stored
to/from position into the model's position slot and change nothing
else — not the rotation, scale, `surfaceNormal`, `contactAxis`, scene
membership or the selectable array. -/
theorem c9_move_command_frame (w : World) (id : Nat) (f t : Vec3Q) :
    (execCmd (Cmd.move id f t) w).pos = Function.update w.pos id t ∧
    (undoCmd (Cmd.move id f t) w).pos = Function.update w.pos id f ∧
    (execCmd (Cmd.move id f t) w).rot = w.rot ∧
    (execCmd (Cmd.move id f t) w).scl = w.scl ∧
    (execCmd (Cmd.move id f t) w).surfaceNormal = w.surfaceNormal ∧
    (execCmd (Cmd.move id f t) w).contactAxis = w.contactAxis ∧
    (execCmd (Cmd.move id f t) w).scene = w.scene ∧
    (execCmd (Cmd.move id f t) w).selectable = w.selectable ∧
    (undoCmd (Cmd.move id f t) w).rot = w.rot ∧
    (undoCmd (Cmd.move id f t) w).scl = w.scl ∧
    (undoCmd (Cmd.move id f t) w).surfaceNormal = w.surfaceNormal ∧
    (undoCmd (Cmd.move id f t) w).contactAxis = w.contactAxis ∧
    (undoCmd (Cmd.move id f t) w).scene = w.scene ∧
    (undoCmd (Cmd.move id f t) w).selectable = w.selectable :=
  ⟨rfl, rfl, rfl, rfl, rfl, rfl, rfl, rfl, rfl, rfl, rfl, rfl, rfl, rfl⟩

end Undo

namespace Undo

theorem WEquiv.refl (w : World) : WEquiv w w :=
  ⟨rfl, rfl, rfl, rfl, rfl, rfl, fun _ => Iff.rfl⟩

theorem WEquiv.trans {a b c : World} (h1 : WEquiv a b) (h2 : WEquiv b c) : WEquiv a c :=
  ⟨h1.1.trans h2.1, h1.2.1.trans h2.2.1, h1.2.2.1.trans h2.2.2.1,
   h1.2.2.2.1.trans h2.2.2.2.1, h1.2.2.2.2.1.trans h2.2.2.2.2.1,
   h1.2.2.2.2.2.1.trans h2.2.2.2.2.2.1,
   fun x => (h1.2.2.2.2.2.2 x).trans (h2.2.2.2.2.2.2 x)⟩

theorem mem_pushSelectable (id : Nat) (l : List Nat) (x : Nat) :
    x ∈ pushSelectable id l ↔ x ∈ l ∨ x = id := by
  unfold pushSelectable
  split
  · rename_i h
    simp only [List.contains_iff_exists_mem_beq, beq_iff_eq] at h
    obtain ⟨a, ha, rfl⟩ := h
    constructor
    · exact fun hx => Or.inl hx
    · rintro (hx | rfl) <;> assumption
  · simp [or_comm]

theorem nodup_pushSelectable (id : Nat) (l : List Nat) (h : l.Nodup) :
    (pushSelectable id l).Nodup := by
  unfold pushSelectable
  split
  · exact h
  · rename_i hc
    rw [List.nodup_append]
    refine ⟨h, List.nodup_singleton id, ?_⟩
    intro a ha hmem
    rw [List.mem_singleton] at hmem
    subst hmem
    simp only [List.contains_iff_exists_mem_beq, beq_iff_eq] at hc
    exact hc ⟨a, ha, rfl⟩

theorem nodup_execCmd (c : Cmd) (w : World) (h : w.selectable.Nodup) :
    (execCmd c w).selectable.Nodup := by
  cases c <;> simp only [execCmd] <;>
    first
      | exact h
      | exact nodup_pushSelectable _ _ h
      | exact h.erase _

theorem nodup_undoCmd (c : Cmd) (w : World) (h : w.selectable.Nodup) :
    (undoCmd c w).selectable.Nodup := by
  cases c <;> simp only [undoCmd] <;>
    first
      | exact h
      | exact nodup_pushSelectable _ _ h
      | exact h.erase _

theorem nodup_execList (cs : List Cmd) : ∀ (w : World), w.selectable.Nodup →
    (execList cs w).selectable.Nodup := by
  induction cs with
  | nil => intro w h; exact h
  | cons c ds ih =>
      intro w h
      rw [execList, List.foldl_cons]
      exact ih (execCmd c w) (nodup_execCmd c w h)

theorem nodup_undoFold (cs : List Cmd) : ∀ (w : World), w.selectable.Nodup →
    (cs.foldl (fun w c => undoCmd c w) w).selectable.Nodup := by
  induction cs with
  | nil => intro w h; exact h
  | cons c ds ih =>
      intro w h
      rw [List.foldl_cons]
      exact ih (undoCmd c w) (nodup_undoCmd c w h)

end Undo

namespace Undo

theorem undo_exec_of_coherent (c : Cmd) (w : World) (hc : coherentB w c = true)
    (hnd : w.selectable.Nodup) : WEquiv (undoCmd c (execCmd c w)) w := by
  cases c with
  | place id p r s =>
      simp only [coherentB, Bool.and_eq_true, beq_iff_eq, Bool.not_eq_true',
        List.contains_eq_any_beq, List.any_eq_false, beq_eq_false_iff_ne] at hc
      obtain ⟨⟨⟨⟨hp, hr⟩, hs⟩, hsc⟩, hsel⟩ := hc
      have hmem : id ∉ w.selectable := fun h => hsel id h rfl
      refine ⟨?_, ?_, ?_, rfl, rfl, ?_, ?_⟩
      · simp only [execCmd, undoCmd]
        rw [← hp, Function.update_eq_self]
      · simp only [execCmd, undoCmd]
        rw [← hr, Function.update_eq_self]
      · simp only [execCmd, undoCmd]
        rw [← hs, Function.update_eq_self]
      · simp only [execCmd, undoCmd]
        rw [Function.update_idem, ← hsc, Function.update_eq_self]
      · intro x
        simp only [execCmd, undoCmd, spliceSelectable, pushSelectable]
        rw [if_neg (by simp [hmem] : ¬(w.selectable.contains id = true))]
        rw [List.erase_append_right [id] hmem, List.erase_cons_head, List.append_nil]
  | move id f t =>
      simp only [coherentB, beq_iff_eq] at hc
      refine ⟨?_, rfl, rfl, rfl, rfl, rfl, fun _ => Iff.rfl⟩
      simp only [execCmd, undoCmd]
      rw [Function.update_idem, ← hc, Function.update_eq_self]
  | rotate id f t =>
      simp only [coherentB, beq_iff_eq] at hc
      refine ⟨rfl, ?_, rfl, rfl, rfl, rfl, fun _ => Iff.rfl⟩
      simp only [execCmd, undoCmd]
      rw [Function.update_idem, ← hc, Function.update_eq_self]
  | scaleCmd id f t =>
      simp only [coherentB, beq_iff_eq] at hc
      refine ⟨rfl, rfl, ?_, rfl, rfl, rfl, fun _ => Iff.rfl⟩
      simp only [execCmd, undoCmd]
      rw [Function.update_idem, ← hc, Function.update_eq_self]
  | delete id p r s =>
      simp only [coherentB, Bool.and_eq_true, beq_iff_eq] at hc
      obtain ⟨⟨⟨⟨hp, hr⟩, hs⟩, hsc⟩, hsel⟩ := hc
      have hmem : id ∈ w.selectable := by
        simpa using hsel
      refine ⟨?_, ?_, ?_, rfl, rfl, ?_, ?_⟩
      · simp only [execCmd, undoCmd]
        rw [← hp, Function.update_eq_self]
      · simp only [execCmd, undoCmd]
        rw [← hr, Function.update_eq_self]
      · simp only [execCmd, undoCmd]
        rw [← hs, Function.update_eq_self]
      · simp only [execCmd, undoCmd]
        rw [Function.update_idem, ← hsc, Function.update_eq_self]
      · intro x
        simp only [execCmd, undoCmd, spliceSelectable, pushSelectable]
        have hid : id ∉ w.selectable.erase id := by
          intro h
          exact absurd rfl (hnd.mem_erase_iff.mp h).1
        rw [if_neg (by simpa using hid)]
        constructor
        · intro hx
          rcases List.mem_append.mp hx with hx | hx
          · exact (List.mem_of_mem_erase hx)
          · rw [List.mem_singleton] at hx
            subst hx
            exact hmem
        · intro hx
          by_cases hxi : x = id
          · subst hxi
            exact List.mem_append.mpr (Or.inr (List.mem_singleton.mpr rfl))
          · exact List.mem_append.mpr (Or.inl ((List.mem_erase_of_ne hxi).mpr hx))

end Undo

namespace Undo

theorem mem_pushSelectable_congr {l l' : List Nat} (h : ∀ x, x ∈ l ↔ x ∈ l') (id x : Nat) :
    x ∈ pushSelectable id l ↔ x ∈ pushSelectable id l' := by
  rw [mem_pushSelectable, mem_pushSelectable]
  exact or_congr (h x) Iff.rfl

theorem mem_erase_congr {l l' : List Nat} (h : ∀ x, x ∈ l ↔ x ∈ l')
    (h1 : l.Nodup) (h2 : l'.Nodup) (a x : Nat) :
    x ∈ l.erase a ↔ x ∈ l'.erase a := by
  rw [h1.mem_erase_iff, h2.mem_erase_iff]
  exact and_congr Iff.rfl (h x)

theorem execCmd_congr (c : Cmd) {w w' : World} (h : WEquiv w w')
    (h1 : w.selectable.Nodup) (h2 : w'.selectable.Nodup) :
    WEquiv (execCmd c w) (execCmd c w') := by
  obtain ⟨hp, hr, hs, hn, ha, hc, hsel⟩ := h
  cases c with
  | place id p r s =>
      exact ⟨by rw [execCmd, execCmd, hp], by rw [execCmd, execCmd, hr],
        by rw [execCmd, execCmd, hs], hn, ha, by rw [execCmd, execCmd, hc],
        fun x => mem_pushSelectable_congr hsel id x⟩
  | move id f t =>
      exact ⟨by rw [execCmd, execCmd, hp], hr, hs, hn, ha, hc, hsel⟩
  | rotate id f t =>
      exact ⟨hp, by rw [execCmd, execCmd, hr], hs, hn, ha, hc, hsel⟩
  | scaleCmd id f t =>
      exact ⟨hp, hr, by rw [execCmd, execCmd, hs], hn, ha, hc, hsel⟩
  | delete id p r s =>
      exact ⟨hp, hr, hs, hn, ha, by rw [execCmd, execCmd, hc],
        fun x => mem_erase_congr hsel h1 h2 id x⟩

theorem undoCmd_congr (c : Cmd) {w w' : World} (h : WEquiv w w')
    (h1 : w.selectable.Nodup) (h2 : w'.selectable.Nodup) :
    WEquiv (undoCmd c w) (undoCmd c w') := by
  obtain ⟨hp, hr, hs, hn, ha, hc, hsel⟩ := h
  cases c with
  | place id p r s =>
      exact ⟨hp, hr, hs, hn, ha, by rw [undoCmd, undoCmd, hc],
        fun x => mem_erase_congr hsel h1 h2 id x⟩
  | move id f t =>
      exact ⟨by rw [undoCmd, undoCmd, hp], hr, hs, hn, ha, hc, hsel⟩
  | rotate id f t =>
      exact ⟨hp, by rw [undoCmd, undoCmd, hr], hs, hn, ha, hc, hsel⟩
  | scaleCmd id f t =>
      exact ⟨hp, hr, by rw [undoCmd, undoCmd, hs], hn, ha, hc, hsel⟩
  | delete id p r s =>
      exact ⟨by rw [undoCmd, undoCmd, hp], by rw [undoCmd, undoCmd, hr],
        by rw [undoCmd, undoCmd, hs], hn, ha, by rw [undoCmd, undoCmd, hc],
        fun x => mem_pushSelectable_congr hsel id x⟩

theorem execList_congr (cs : List Cmd) : ∀ {w w' : World}, WEquiv w w' →
    w.selectable.Nodup → w'.selectable.Nodup →
    WEquiv (execList cs w) (execList cs w') := by
  induction cs with
  | nil => intro w w' h _ _; exact h
  | cons c ds ih =>
      intro w w' h h1 h2
      rw [execList, List.foldl_cons, execList, List.foldl_cons]
      exact ih (execCmd_congr c h h1 h2) (nodup_execCmd c w h1) (nodup_execCmd c w' h2)

theorem undoList_execList (cs : List Cmd) : ∀ (w : World),
    coherentSeqB w cs = true → w.selectable.Nodup →
    WEquiv (undoListRev cs (execList cs w)) w := by
  induction cs with
  | nil => intro w _ _; exact WEquiv.refl w
  | cons c ds ih =>
      intro w hcoh hnd
      rw [coherentSeqB, Bool.and_eq_true] at hcoh
      obtain ⟨hc, hcs⟩ := hcoh
      rw [execList, List.foldl_cons, undoListRev, List.reverse_cons, List.foldl_append,
        List.foldl_cons, List.foldl_nil]
      have hnd' : (execCmd c w).selectable.Nodup := nodup_execCmd c w hnd
      have ihh := ih (execCmd c w) hcs hnd'
      have hndA : (List.foldl (fun w c => undoCmd c w) (execList ds (execCmd c w))
          ds.reverse).selectable.Nodup :=
        nodup_undoFold ds.reverse _ (nodup_execList ds _ hnd')
      have step : WEquiv
          (undoCmd c (List.foldl (fun w c => undoCmd c w) (execList ds (execCmd c w)) ds.reverse))
          (undoCmd c (execCmd c w)) := by
        have : undoListRev ds (execList ds (execCmd c w)) =
            List.foldl (fun w c => undoCmd c w) (execList ds (execCmd c w)) ds.reverse := rfl
        exact undoCmd_congr c (this ▸ ihh) hndA hnd'
      exact step.trans (undo_exec_of_coherent c w hc hnd)

end Undo

namespace Undo

theorem executeAll_world (M : Nat) (cs : List Cmd) : ∀ s : ManagerState,
    (executeAll M cs s).world = execList cs s.world := by
  induction cs with
  | nil => intro s; rfl
  | cons c ds ih =>
      intro s
      rw [executeAll, List.foldl_cons, execList, List.foldl_cons]
      exact ih (doExecute M c s)

theorem executeAll_undoStack (M : Nat) (cs : List Cmd) : ∀ s : ManagerState,
    s.undoStack.length + cs.length ≤ M →
    (executeAll M cs s).undoStack = s.undoStack ++ cs := by
  induction cs with
  | nil => intro s _; simp [executeAll]
  | cons c ds ih =>
      intro s h
      rw [executeAll, List.foldl_cons]
      have hstep : (doExecute M c s).undoStack = s.undoStack ++ [c] := by
        simp only [doExecute, pushTrim, List.length_append, List.length_cons, List.length_nil]
        rw [if_neg (by simp at h ⊢; omega)]
      have := ih (doExecute M c s) (by
        rw [hstep]
        simp only [List.length_append, List.length_cons, List.length_nil] at h ⊢
        omega)
      rw [executeAll] at this
      rw [this, hstep]
      simp

theorem undoN (cs : List Cmd) : ∀ (t : ManagerState) (us₀ : List Cmd),
    t.undoStack = us₀ ++ cs →
    doUndo^[cs.length] t =
      { world := undoListRev cs t.world
        undoStack := us₀
        redoStack := t.redoStack ++ cs.reverse } := by
  induction cs using List.reverseRecOn with
  | nil =>
      intro t us₀ h
      simp only [List.length_nil, Function.iterate_zero_apply, undoListRev,
        List.reverse_nil, List.foldl_nil, List.append_nil]
      cases t
      simp_all
  | append_singleton ds c ih =>
      intro t us₀ h
      have hlen : (ds ++ [c]).length = ds.length + 1 := by simp
      rw [hlen, Function.iterate_succ_apply]
      have hpop : doUndo t =
          { world := undoCmd c t.world
            undoStack := us₀ ++ ds
            redoStack := t.redoStack ++ [c] } := by
        unfold doUndo
        rw [h, ← List.append_assoc, List.getLast?_concat, List.dropLast_concat]
      rw [hpop]
      rw [ih _ us₀ rfl]
      simp only [undoListRev, List.reverse_append, List.reverse_singleton,
        List.singleton_append, List.foldl_cons, List.append_assoc]

theorem redoN (cs : List Cmd) : ∀ (t : ManagerState) (rs₀ : List Cmd),
    t.redoStack = rs₀ ++ cs.reverse →
    doRedo^[cs.length] t =
      { world := execList cs t.world
        undoStack := t.undoStack ++ cs
        redoStack := rs₀ } := by
  induction cs with
  | nil =>
      intro t rs₀ h
      simp only [List.length_nil, Function.iterate_zero_apply, execList,
        List.foldl_nil, List.append_nil]
      cases t
      simp_all
  | cons c es ih =>
      intro t rs₀ h
      rw [List.length_cons, Function.iterate_succ_apply]
      have hpop : doRedo t =
          { world := execCmd c t.world
            undoStack := t.undoStack ++ [c]
            redoStack := rs₀ ++ es.reverse } := by
        unfold doRedo
        rw [h, List.reverse_cons, ← List.append_assoc, List.getLast?_concat,
          List.dropLast_concat]
      rw [hpop]
      rw [ih _ rs₀ rfl]
      simp only [execList, List.foldl_cons, List.append_assoc, List.singleton_append]

end Undo

namespace Undo

/-- C2 (amended): for a command sequence that fits in the history bound
(`|initial undo stack| + |sequence| <= maxHistory`) and whose commands
store the state they actually run on, executing the sequence through the
manager and undoing once per command restores every transform slot, the
drag metadata, scene membership and the selectable set; redoing the same
number of times reproduces the post-sequence state (the selectable array
is compared as a set: `DeleteFurnitureCommand.undo` re-appends at the
end rather than at the original index). -/
theorem c2_undo_redo_roundtrip (M : Nat) (s : ManagerState) (cs : List Cmd)
    (hcoh : coherentSeqB s.world cs = true)
    (hnd : s.world.selectable.Nodup)
    (hlen : s.undoStack.length + cs.length ≤ M) :
    WEquiv (doUndo^[cs.length] (executeAll M cs s)).world s.world ∧
    WEquiv (doRedo^[cs.length] (doUndo^[cs.length] (executeAll M cs s))).world
      (executeAll M cs s).world := by
  have hus : (executeAll M cs s).undoStack = s.undoStack ++ cs :=
    executeAll_undoStack M cs s hlen
  have hw : (executeAll M cs s).world = execList cs s.world := executeAll_world M cs s
  have hu := undoN cs (executeAll M cs s) s.undoStack hus
  have hback : WEquiv (doUndo^[cs.length] (executeAll M cs s)).world s.world := by
    rw [hu]
    dsimp only
    rw [hw]
    exact undoList_execList cs s.world hcoh hnd
  refine ⟨hback, ?_⟩
  have hr := redoN cs (doUndo^[cs.length] (executeAll M cs s))
    (executeAll M cs s).redoStack (by rw [hu])
  rw [hr]
  dsimp only
  rw [hw]
  have hnd1 : (doUndo^[cs.length] (executeAll M cs s)).world.selectable.Nodup := by
    rw [hu]
    dsimp only
    rw [hw]
    exact nodup_undoFold cs.reverse _ (nodup_execList cs _ hnd)
  exact execList_congr cs hback hnd1 hnd

/-- Concrete instance of C2: a single coherent move command on the
sample world, with the default history bound 50. -/
theorem c2_undo_redo_roundtrip_witness :
    coherentSeqB sampleManager.world [Cmd.move 0 ⟨0, 0, 0⟩ ⟨1, 0, 0⟩] = true ∧
    sampleManager.world.selectable.Nodup ∧
    sampleManager.undoStack.length + [Cmd.move 0 ⟨0, 0, 0⟩ ⟨1, 0, 0⟩].length ≤ 50 ∧
    (WEquiv (doUndo^[[Cmd.move 0 ⟨0, 0, 0⟩ ⟨1, 0, 0⟩].length]
        (executeAll 50 [Cmd.move 0 ⟨0, 0, 0⟩ ⟨1, 0, 0⟩] sampleManager)).world
        sampleManager.world ∧
      WEquiv (doRedo^[[Cmd.move 0 ⟨0, 0, 0⟩ ⟨1, 0, 0⟩].length]
          (doUndo^[[Cmd.move 0 ⟨0, 0, 0⟩ ⟨1, 0, 0⟩].length]
            (executeAll 50 [Cmd.move 0 ⟨0, 0, 0⟩ ⟨1, 0, 0⟩] sampleManager))).world
        (executeAll 50 [Cmd.move 0 ⟨0, 0, 0⟩ ⟨1, 0, 0⟩] sampleManager).world) :=
  ⟨by decide, by decide, by decide,
    c2_undo_redo_roundtrip 50 sampleManager [Cmd.move 0 ⟨0, 0, 0⟩ ⟨1, 0, 0⟩]
      (by decide) (by decide) (by decide)⟩

set_option maxRecDepth 100000 in
/-- Counterexample to C2 as stated: 51 coherent move commands run
through a manager with the reference history bound 50; undoing once per
command (51 calls) does not restore the pre-sequence position of model 0
because the oldest command was discarded by the history bound. -/
theorem c2_history_overflow_counterexample :
    coherentSeqB sampleManager.world overflowCmds = true ∧
    overflowCmds.length = 51 ∧
    (doUndo^[overflowCmds.length] (executeAll 50 overflowCmds sampleManager)).world.pos 0 ≠
      sampleManager.world.pos 0 := by
  refine ⟨by decide, by decide, by decide⟩

end Undo

namespace Three

namespace Vector3

theorem add_def (a b : Vector3) : a + b = ⟨a.x + b.x, a.y + b.y, a.z + b.z⟩ := rfl

theorem sub_def (a b : Vector3) : a - b = ⟨a.x - b.x, a.y - b.y, a.z - b.z⟩ := rfl

theorem neg_def (a : Vector3) : -a = ⟨-a.x, -a.y, -a.z⟩ := rfl

theorem smul_def (s : ℝ) (a : Vector3) : s • a = ⟨s * a.x, s * a.y, s * a.z⟩ := rfl

theorem zero_def : (0 : Vector3) = ⟨0, 0, 0⟩ := rfl

theorem lengthSq_nonneg (a : Vector3) : 0 ≤ a.lengthSq := by
  unfold lengthSq
  nlinarith [mul_self_nonneg a.x, mul_self_nonneg a.y, mul_self_nonneg a.z]

theorem length_nonneg (a : Vector3) : 0 ≤ a.length := Real.sqrt_nonneg _

theorem length_eq_zero_iff (a : Vector3) : a.length = 0 ↔ a.lengthSq = 0 := by
  unfold length
  exact Real.sqrt_eq_zero (lengthSq_nonneg a)

theorem length_sq_eq (a : Vector3) : a.length ^ 2 = a.lengthSq :=
  Real.sq_sqrt (lengthSq_nonneg a)

theorem eq_zero_of_lengthSq_eq_zero {a : Vector3} (h : a.lengthSq = 0) : a = ⟨0, 0, 0⟩ := by
  unfold lengthSq at h
  ext <;> simp only [] <;>
    nlinarith [mul_self_nonneg a.x, mul_self_nonneg a.y, mul_self_nonneg a.z]

theorem normalize_of_unit {a : Vector3} (h : a.lengthSq = 1) : a.normalize = a := by
  unfold normalize divideScalar multiplyScalar length
  rw [h, Real.sqrt_one, if_neg one_ne_zero]
  ext <;> simp [smul_def]

theorem lengthSq_normalize {a : Vector3} (h : a.lengthSq ≠ 0) :
    a.normalize.lengthSq = 1 := by
  unfold normalize divideScalar multiplyScalar
  rw [if_neg (fun hz => h ((length_eq_zero_iff a).mp hz))]
  have hl : a.length ^ 2 = a.lengthSq := length_sq_eq a
  have hlne : a.length ≠ 0 := fun hz => h ((length_eq_zero_iff a).mp hz)
  simp only [lengthSq, smul_def] at *
  field_simp
  nlinarith [hl]

theorem dot_le_one {a b : Vector3} (ha : a.lengthSq = 1) (hb : b.lengthSq = 1) :
    dot a b ≤ 1 := by
  unfold lengthSq at ha hb
  unfold dot
  nlinarith [sq_nonneg (a.x - b.x), sq_nonneg (a.y - b.y), sq_nonneg (a.z - b.z)]

theorem neg_one_le_dot {a b : Vector3} (ha : a.lengthSq = 1) (hb : b.lengthSq = 1) :
    -1 ≤ dot a b := by
  unfold lengthSq at ha hb
  unfold dot
  nlinarith [sq_nonneg (a.x + b.x), sq_nonneg (a.y + b.y), sq_nonneg (a.z + b.z)]

end Vector3

namespace Quaternion

theorem normSq_nonneg (q : Quaternion) : 0 ≤ q.normSq := by
  unfold normSq
  nlinarith [mul_self_nonneg q.x, mul_self_nonneg q.y, mul_self_nonneg q.z,
    mul_self_nonneg q.w]

theorem qlength_eq_zero_iff (q : Quaternion) : q.length = 0 ↔ q.normSq = 0 := by
  unfold length
  exact Real.sqrt_eq_zero (normSq_nonneg q)

theorem qlength_sq_eq (q : Quaternion) : q.length ^ 2 = q.normSq :=
  Real.sq_sqrt (normSq_nonneg q)

theorem normSq_mul (u q : Quaternion) : (u.mul q).normSq = u.normSq * q.normSq := by
  unfold mul normSq
  ring

theorem mul_one_right (q : Quaternion) : q.mul one = q := by
  unfold mul one
  ext <;> dsimp <;> ring

theorem mul_one_left (q : Quaternion) : Quaternion.mul one q = q := by
  unfold mul one
  ext <;> dsimp <;> ring

end Quaternion

theorem applyQuaternion_eq_sandwich (q : Quaternion) (v : Vector3) :
    v.applyQuaternion q = q.sandwichAct v + (1 - q.normSq) • v := by
  obtain ⟨qx, qy, qz, qw⟩ := q
  obtain ⟨vx, vy, vz⟩ := v
  ext <;>
    simp only [Vector3.applyQuaternion, Vector3.applyQuatComponents, Quaternion.sandwichAct,
      Quaternion.normSq, Vector3.dot, Vector3.cross, Vector3.lengthSq, Vector3.add_def,
      Vector3.smul_def] <;>
    ring

theorem sandwichAct_mul (u q : Quaternion) (v : Vector3) :
    (u.mul q).sandwichAct v = u.sandwichAct (q.sandwichAct v) := by
  obtain ⟨ux, uy, uz, uw⟩ := u
  obtain ⟨qx, qy, qz, qw⟩ := q
  obtain ⟨vx, vy, vz⟩ := v
  ext <;>
    simp only [Quaternion.sandwichAct, Quaternion.mul, Vector3.dot, Vector3.cross,
      Vector3.lengthSq, Vector3.add_def, Vector3.smul_def] <;>
    ring

theorem sandwichAct_lengthSq (q : Quaternion) (v : Vector3) :
    (q.sandwichAct v).lengthSq = q.normSq ^ 2 * v.lengthSq := by
  obtain ⟨qx, qy, qz, qw⟩ := q
  obtain ⟨vx, vy, vz⟩ := v
  simp only [Quaternion.sandwichAct, Quaternion.normSq, Vector3.dot, Vector3.cross,
    Vector3.lengthSq, Vector3.add_def, Vector3.smul_def]
  ring

theorem sandwichAct_dot (q : Quaternion) (u v : Vector3) :
    Vector3.dot (q.sandwichAct u) (q.sandwichAct v) = q.normSq ^ 2 * Vector3.dot u v := by
  obtain ⟨qx, qy, qz, qw⟩ := q
  obtain ⟨ux, uy, uz⟩ := u
  obtain ⟨vx, vy, vz⟩ := v
  simp only [Quaternion.sandwichAct, Quaternion.normSq, Vector3.dot, Vector3.cross,
    Vector3.lengthSq, Vector3.add_def, Vector3.smul_def]
  ring

end Three

namespace Three

theorem applyQuaternion_of_unit {q : Quaternion} (hq : q.normSq = 1) (v : Vector3) :
    v.applyQuaternion q = q.sandwichAct v := by
  rw [applyQuaternion_eq_sandwich, hq]
  ext <;> simp [Vector3.add_def, Vector3.smul_def]

theorem applyQuaternion_mul {u q : Quaternion} (hu : u.normSq = 1) (hq : q.normSq = 1)
    (v : Vector3) :
    v.applyQuaternion (u.mul q) = (v.applyQuaternion q).applyQuaternion u := by
  rw [applyQuaternion_of_unit (by rw [Quaternion.normSq_mul, hu, hq]; ring),
    applyQuaternion_of_unit hq, applyQuaternion_of_unit hu, sandwichAct_mul]

theorem applyQuaternion_lengthSq {q : Quaternion} (hq : q.normSq = 1) (v : Vector3) :
    (v.applyQuaternion q).lengthSq = v.lengthSq := by
  rw [applyQuaternion_of_unit hq, sandwichAct_lengthSq, hq]
  ring

theorem applyQuaternion_dot {q : Quaternion} (hq : q.normSq = 1) (u v : Vector3) :
    Vector3.dot (u.applyQuaternion q) (v.applyQuaternion q) = Vector3.dot u v := by
  rw [applyQuaternion_of_unit hq, applyQuaternion_of_unit hq, sandwichAct_dot, hq]
  ring

theorem sandwichAct_div (q : Quaternion) (s : ℝ) (v : Vector3) :
    Quaternion.sandwichAct ⟨q.x / s, q.y / s, q.z / s, q.w / s⟩ v =
      (1 / s ^ 2) • q.sandwichAct v := by
  obtain ⟨qx, qy, qz, qw⟩ := q
  obtain ⟨vx, vy, vz⟩ := v
  ext <;>
    simp only [Quaternion.sandwichAct, Vector3.dot, Vector3.cross, Vector3.lengthSq,
      Vector3.add_def, Vector3.smul_def] <;>
    ring

theorem normSq_normalizeQ {q : Quaternion} (h : q.normSq ≠ 0) :
    (Quaternion.normalizeQ q).normSq = 1 := by
  unfold Quaternion.normalizeQ
  rw [if_neg (fun hz => h ((Quaternion.qlength_eq_zero_iff q).mp hz))]
  have h2 : q.length ^ 2 = q.normSq := Quaternion.qlength_sq_eq q
  have hl : q.length ≠ 0 := fun hz => h ((Quaternion.qlength_eq_zero_iff q).mp hz)
  unfold Quaternion.normSq at h2 h ⊢
  field_simp
  linarith [h2]

theorem applyQuaternion_normalizeQ {q : Quaternion} (h : q.normSq ≠ 0) (v : Vector3) :
    v.applyQuaternion (Quaternion.normalizeQ q) = (1 / q.normSq) • q.sandwichAct v := by
  rw [applyQuaternion_of_unit (normSq_normalizeQ h)]
  unfold Quaternion.normalizeQ
  have hl : q.length ≠ 0 := fun hz => h ((Quaternion.qlength_eq_zero_iff q).mp hz)
  rw [if_neg hl, sandwichAct_div q q.length v, Quaternion.qlength_sq_eq]

theorem sandwich_half_quat {a b : Vector3} (ha : a.lengthSq = 1) (hb : b.lengthSq = 1) :
    Quaternion.sandwichAct
      ⟨a.y * b.z - a.z * b.y, a.z * b.x - a.x * b.z, a.x * b.y - a.y * b.x,
        Vector3.dot a b + 1⟩ a = (2 * (Vector3.dot a b + 1)) • b := by
  obtain ⟨ax, ay, az⟩ := a
  obtain ⟨bx, by', bz⟩ := b
  simp only [Vector3.lengthSq] at ha hb
  ext <;>
    simp only [Quaternion.sandwichAct, Vector3.dot, Vector3.cross, Vector3.lengthSq,
      Vector3.add_def, Vector3.smul_def]
  · linear_combination (2 * (ax * bx + ay * by' + az * bz + 1) * bx -
      (bx * bx + by' * by' + bz * bz) * ax) * ha - ax * hb
  · linear_combination (2 * (ax * bx + ay * by' + az * bz + 1) * by' -
      (bx * bx + by' * by' + bz * bz) * ay) * ha - ay * hb
  · linear_combination (2 * (ax * bx + ay * by' + az * bz + 1) * bz -
      (bx * bx + by' * by' + bz * bz) * az) * ha - az * hb

theorem normSq_half_quat {a b : Vector3} (ha : a.lengthSq = 1) (hb : b.lengthSq = 1) :
    Quaternion.normSq
      ⟨a.y * b.z - a.z * b.y, a.z * b.x - a.x * b.z, a.x * b.y - a.y * b.x,
        Vector3.dot a b + 1⟩ = 2 * (Vector3.dot a b + 1) := by
  obtain ⟨ax, ay, az⟩ := a
  obtain ⟨bx, by', bz⟩ := b
  simp only [Vector3.lengthSq] at ha hb
  simp only [Quaternion.normSq, Vector3.dot]
  linear_combination (bx * bx + by' * by' + bz * bz) * ha + hb

end Three

namespace Three

theorem numberEPSILON_pos : (0 : ℝ) < NumberEPSILON := by
  unfold NumberEPSILON
  positivity

theorem apply_setFromUnitVectors_main {a b : Vector3} (ha : a.lengthSq = 1)
    (hb : b.lengthSq = 1) (hr : ¬(Vector3.dot a b + 1 < NumberEPSILON)) :
    a.applyQuaternion (Quaternion.setFromUnitVectors a b) = b := by
  simp only [Quaternion.setFromUnitVectors]
  rw [if_neg hr]
  have hpos : 0 < Vector3.dot a b + 1 := lt_of_lt_of_le numberEPSILON_pos (not_lt.mp hr)
  have hnz : Quaternion.normSq
      ⟨a.y * b.z - a.z * b.y, a.z * b.x - a.x * b.z, a.x * b.y - a.y * b.x,
        Vector3.dot a b + 1⟩ ≠ 0 := by
    rw [normSq_half_quat ha hb]
    positivity
  rw [applyQuaternion_normalizeQ hnz, sandwich_half_quat ha hb, normSq_half_quat ha hb]
  obtain ⟨bx, by', bz⟩ := b
  ext <;> simp only [Vector3.smul_def] <;> field_simp

theorem inv_smul_neg_smul (c : ℝ) (hc : c ≠ 0) (v : Vector3) :
    (1 / c) • ((-c) • v) = -v := by
  obtain ⟨vx, vy, vz⟩ := v
  ext <;> simp only [Vector3.smul_def, Vector3.neg_def] <;> field_simp <;> ring

theorem apply_setFromUnitVectors_antipodal {a b : Vector3} (ha : a.lengthSq = 1)
    (hr : Vector3.dot a b + 1 < NumberEPSILON) :
    a.applyQuaternion (Quaternion.setFromUnitVectors a b) = -a := by
  simp only [Quaternion.setFromUnitVectors]
  rw [if_pos hr]
  by_cases hx : |a.x| > |a.z|
  · rw [if_pos hx]
    have hax : a.x ≠ 0 := by
      intro h0
      rw [h0] at hx
      simp only [abs_zero] at hx
      exact absurd hx (not_lt.mpr (abs_nonneg a.z))
    have hnz : Quaternion.normSq ⟨-a.y, a.x, 0, 0⟩ ≠ 0 := by
      simp only [Quaternion.normSq]
      nlinarith [mul_self_nonneg a.y, mul_self_pos.mpr hax]
    have hσ : Quaternion.sandwichAct ⟨-a.y, a.x, 0, 0⟩ a =
        (-(Quaternion.normSq ⟨-a.y, a.x, 0, 0⟩)) • a := by
      obtain ⟨ax, ay, az⟩ := a
      ext <;>
        simp only [Quaternion.sandwichAct, Quaternion.normSq, Vector3.dot, Vector3.cross,
          Vector3.lengthSq, Vector3.add_def, Vector3.smul_def] <;>
        ring
    rw [applyQuaternion_normalizeQ hnz, hσ]
    exact inv_smul_neg_smul _ hnz a
  · rw [if_neg hx]
    have hyz : ¬(a.z * a.z + a.y * a.y = 0) := by
      intro h0
      have hz0 : a.z = 0 := by nlinarith [mul_self_nonneg a.z, mul_self_nonneg a.y]
      have hy0 : a.y = 0 := by nlinarith [mul_self_nonneg a.z, mul_self_nonneg a.y]
      rw [not_lt, hz0, abs_zero] at hx
      have hx0 : a.x = 0 := abs_nonpos_iff.mp hx
      unfold Vector3.lengthSq at ha
      rw [hx0, hy0, hz0] at ha
      norm_num at ha
    have hnz : Quaternion.normSq ⟨0, -a.z, a.y, 0⟩ ≠ 0 := by
      simp only [Quaternion.normSq]
      intro h0
      exact hyz (by nlinarith)
    have hσ : Quaternion.sandwichAct ⟨0, -a.z, a.y, 0⟩ a =
        (-(Quaternion.normSq ⟨0, -a.z, a.y, 0⟩)) • a := by
      obtain ⟨ax, ay, az⟩ := a
      ext <;>
        simp only [Quaternion.sandwichAct, Quaternion.normSq, Vector3.dot, Vector3.cross,
          Vector3.lengthSq, Vector3.add_def, Vector3.smul_def] <;>
        ring
    rw [applyQuaternion_normalizeQ hnz, hσ]
    exact inv_smul_neg_smul _ hnz a

theorem normSq_setFromUnitVectors {a b : Vector3} (ha : a.lengthSq = 1)
    (hb : b.lengthSq = 1) :
    (Quaternion.setFromUnitVectors a b).normSq = 1 := by
  simp only [Quaternion.setFromUnitVectors]
  by_cases hr : Vector3.dot a b + 1 < NumberEPSILON
  · rw [if_pos hr]
    by_cases hx : |a.x| > |a.z|
    · rw [if_pos hx]
      apply normSq_normalizeQ
      have hax : a.x ≠ 0 := by
        intro h0
        rw [h0] at hx
        simp only [abs_zero] at hx
        exact absurd hx (not_lt.mpr (abs_nonneg a.z))
      simp only [Quaternion.normSq]
      nlinarith [mul_self_nonneg a.y, mul_self_pos.mpr hax]
    · rw [if_neg hx]
      apply normSq_normalizeQ
      simp only [Quaternion.normSq]
      intro h0
      have hz0 : a.z = 0 := by nlinarith [mul_self_nonneg a.z, mul_self_nonneg a.y]
      have hy0 : a.y = 0 := by nlinarith [mul_self_nonneg a.z, mul_self_nonneg a.y]
      rw [not_lt, hz0, abs_zero] at hx
      have hx0 : a.x = 0 := abs_nonpos_iff.mp hx
      unfold Vector3.lengthSq at ha
      rw [hx0, hy0, hz0] at ha
      norm_num at ha
  · rw [if_neg hr]
    apply normSq_normalizeQ
    rw [normSq_half_quat ha hb]
    have hpos : 0 < Vector3.dot a b + 1 := lt_of_lt_of_le numberEPSILON_pos (not_lt.mp hr)
    positivity

end Three

namespace Three

theorem dot_comm (a b : Vector3) : Vector3.dot a b = Vector3.dot b a := by
  unfold Vector3.dot
  ring

theorem cross_lengthSq (a b : Vector3) :
    (Vector3.cross a b).lengthSq = a.lengthSq * b.lengthSq - (Vector3.dot a b) ^ 2 := by
  obtain ⟨ax, ay, az⟩ := a
  obtain ⟨bx, by', bz⟩ := b
  simp only [Vector3.cross, Vector3.lengthSq, Vector3.dot]
  ring

theorem cross_cross (a b c : Vector3) :
    Vector3.cross a (Vector3.cross b c) =
      (Vector3.dot a c) • b - (Vector3.dot a b) • c := by
  obtain ⟨ax, ay, az⟩ := a
  obtain ⟨bx, by', bz⟩ := b
  obtain ⟨cx, cy, cz⟩ := c
  ext <;> simp only [Vector3.cross, Vector3.dot, Vector3.smul_def, Vector3.sub_def] <;> ring

theorem dot_cross_cyclic (a b c : Vector3) :
    Vector3.dot a (Vector3.cross b c) = Vector3.dot b (Vector3.cross c a) := by
  obtain ⟨ax, ay, az⟩ := a
  obtain ⟨bx, by', bz⟩ := b
  obtain ⟨cx, cy, cz⟩ := c
  simp only [Vector3.cross, Vector3.dot]
  ring

theorem dot_cross_self (a b : Vector3) : Vector3.dot a (Vector3.cross b a) = 0 := by
  obtain ⟨ax, ay, az⟩ := a
  obtain ⟨bx, by', bz⟩ := b
  simp only [Vector3.cross, Vector3.dot]
  ring

theorem decomp_lengthSq (u v e : Vector3) (d T : ℝ) :
    (v - d • u - T • e).lengthSq =
      v.lengthSq + d ^ 2 * u.lengthSq + T ^ 2 * e.lengthSq -
        2 * d * Vector3.dot u v - 2 * T * Vector3.dot v e + 2 * d * T * Vector3.dot u e := by
  obtain ⟨ux, uy, uz⟩ := u
  obtain ⟨vx, vy, vz⟩ := v
  obtain ⟨ex, ey, ez⟩ := e
  simp only [Vector3.lengthSq, Vector3.dot, Vector3.sub_def, Vector3.smul_def]
  ring

theorem normSq_setFromAxisAngle {n : Vector3} (hn : n.lengthSq = 1) (θ : ℝ) :
    (Quaternion.setFromAxisAngle n θ).normSq = 1 := by
  obtain ⟨nx, ny, nz⟩ := n
  simp only [Vector3.lengthSq] at hn
  simp only [Quaternion.setFromAxisAngle, Quaternion.normSq]
  have hsc := Real.sin_sq_add_cos_sq (θ / 2)
  linear_combination (Real.sin (θ / 2) ^ 2) * hn + hsc

theorem apply_setFromAxisAngle_self (n : Vector3) (θ : ℝ) :
    n.applyQuaternion (Quaternion.setFromAxisAngle n θ) = n := by
  obtain ⟨nx, ny, nz⟩ := n
  ext <;>
    simp only [Quaternion.setFromAxisAngle, Vector3.applyQuaternion,
      Vector3.applyQuatComponents] <;>
    ring

theorem apply_setFromAxisAngle {n : Vector3} (hn : n.lengthSq = 1) (θ : ℝ) (v : Vector3) :
    v.applyQuaternion (Quaternion.setFromAxisAngle n θ) =
      Real.cos θ • v + (Real.sin θ • Vector3.cross n v +
        ((1 - Real.cos θ) * Vector3.dot n v) • n) := by
  have h1 := Real.sin_two_mul (θ / 2)
  have h2 := Real.cos_two_mul (θ / 2)
  rw [show 2 * (θ / 2) = θ by ring] at h1 h2
  have hsc := Real.sin_sq_add_cos_sq (θ / 2)
  obtain ⟨nx, ny, nz⟩ := n
  obtain ⟨vx, vy, vz⟩ := v
  simp only [Vector3.lengthSq] at hn
  rw [h1, h2]
  ext <;>
    simp only [Quaternion.setFromAxisAngle, Vector3.applyQuaternion,
      Vector3.applyQuatComponents, Vector3.cross, Vector3.dot, Vector3.add_def,
      Vector3.smul_def]
  · linear_combination
      (-2 * vx + 2 * nx * (nx * vx + ny * vy + nz * vz)) * hsc +
        (-2 * vx * Real.sin (θ / 2) ^ 2) * hn
  · linear_combination
      (-2 * vy + 2 * ny * (nx * vx + ny * vy + nz * vz)) * hsc +
        (-2 * vy * Real.sin (θ / 2) ^ 2) * hn
  · linear_combination
      (-2 * vz + 2 * nz * (nx * vx + ny * vy + nz * vz)) * hsc +
        (-2 * vz * Real.sin (θ / 2) ^ 2) * hn

end Three

namespace Three

theorem rotate_to_align {n u v : Vector3} (hn : n.lengthSq = 1) (hu : u.lengthSq = 1)
    (hv : v.lengthSq = 1) (hun : Vector3.dot u n = 0) (hvn : Vector3.dot v n = 0) :
    u.applyQuaternion (Quaternion.setFromAxisAngle n
      (if Vector3.dot (Vector3.cross u v) n < 0
       then -(Real.arccos (max (-1) (min 1 (Vector3.dot u v))))
       else Real.arccos (max (-1) (min 1 (Vector3.dot u v))))) = v := by
  have hd1 : -1 ≤ Vector3.dot u v := Vector3.neg_one_le_dot hu hv
  have hd2 : Vector3.dot u v ≤ 1 := Vector3.dot_le_one hu hv
  have hclamp : max (-1 : ℝ) (min 1 (Vector3.dot u v)) = Vector3.dot u v := by
    rw [min_eq_right hd2, max_eq_right hd1]
  rw [hclamp]
  have hnu : Vector3.dot n u = 0 := by rw [dot_comm]; exact hun
  have hnv : Vector3.dot n v = 0 := by rw [dot_comm]; exact hvn
  -- the signed-angle scalar and its square
  have hTd : Vector3.dot (Vector3.cross u v) n ^ 2 = 1 - Vector3.dot u v ^ 2 := by
    have hcc : Vector3.cross n (Vector3.cross u v) =
        (Vector3.dot n v) • u - (Vector3.dot n u) • v := cross_cross n u v
    rw [hnv, hnu] at hcc
    have hzero : ((0 : ℝ) • u - (0 : ℝ) • v).lengthSq = 0 := by
      obtain ⟨ux, uy, uz⟩ := u
      obtain ⟨vx, vy, vz⟩ := v
      simp only [Vector3.smul_def, Vector3.sub_def, Vector3.lengthSq]
      ring
    have hL := cross_lengthSq n (Vector3.cross u v)
    rw [hcc, hzero, hn] at hL
    have hLz := cross_lengthSq u v
    rw [hu, hv] at hLz
    have hcom : Vector3.dot n (Vector3.cross u v) = Vector3.dot (Vector3.cross u v) n :=
      dot_comm _ _
    rw [hLz, hcom] at hL
    linarith
  -- cosine and sine of the applied angle
  have hcosθ : Real.cos
      (if Vector3.dot (Vector3.cross u v) n < 0
       then -(Real.arccos (Vector3.dot u v))
       else Real.arccos (Vector3.dot u v)) = Vector3.dot u v := by
    split
    · rw [Real.cos_neg, Real.cos_arccos hd1 hd2]
    · rw [Real.cos_arccos hd1 hd2]
  have hsinθ : Real.sin
      (if Vector3.dot (Vector3.cross u v) n < 0
       then -(Real.arccos (Vector3.dot u v))
       else Real.arccos (Vector3.dot u v)) = Vector3.dot (Vector3.cross u v) n := by
    have hsqrt : Real.sqrt (1 - Vector3.dot u v ^ 2) = |Vector3.dot (Vector3.cross u v) n| := by
      rw [← hTd, Real.sqrt_sq_eq_abs]
    split
    · rename_i hT
      rw [Real.sin_neg, Real.sin_arccos, hsqrt, abs_of_neg hT]
      ring
    · rename_i hT
      rw [Real.sin_arccos, hsqrt, abs_of_nonneg (not_lt.mp hT)]
  rw [apply_setFromAxisAngle hn, hcosθ, hsinθ, hnu, mul_zero]
  -- the decomposition of v in the plane basis
  have hw : (v - (Vector3.dot u v) • u -
      (Vector3.dot (Vector3.cross u v) n) • Vector3.cross n u).lengthSq = 0 := by
    rw [decomp_lengthSq, hv, hu, cross_lengthSq n u, hn, hu, hnu]
    have hA3 : Vector3.dot v (Vector3.cross n u) = Vector3.dot n (Vector3.cross u v) :=
      dot_cross_cyclic v n u
    have hA2 : Vector3.dot u (Vector3.cross n u) = 0 := dot_cross_self u n
    rw [hA3, hA2, dot_comm n (Vector3.cross u v)]
    ring_nf
    ring_nf at hTd
    linarith
  have h0 := Vector3.eq_zero_of_lengthSq_eq_zero hw
  have hx := congrArg Vector3.x h0
  have hy := congrArg Vector3.y h0
  have hz := congrArg Vector3.z h0
  simp only [Vector3.sub_def, Vector3.smul_def] at hx hy hz
  ext <;> simp only [Vector3.add_def, Vector3.smul_def] <;> linarith [hx, hy, hz]

end Three

namespace Three

theorem dot_self_eq_lengthSq (a : Vector3) : Vector3.dot a a = a.lengthSq := rfl

theorem dot_neg_left (a b : Vector3) : Vector3.dot (-a) b = -(Vector3.dot a b) := by
  obtain ⟨ax, ay, az⟩ := a
  obtain ⟨bx, by', bz⟩ := b
  simp only [Vector3.dot, Vector3.neg_def]
  ring

theorem dot_smul_left (c : ℝ) (a b : Vector3) :
    Vector3.dot (c • a) b = c * Vector3.dot a b := by
  obtain ⟨ax, ay, az⟩ := a
  obtain ⟨bx, by', bz⟩ := b
  simp only [Vector3.dot, Vector3.smul_def]
  ring

theorem cross_self (a : Vector3) : Vector3.cross a a = ⟨0, 0, 0⟩ := by
  obtain ⟨ax, ay, az⟩ := a
  ext <;> simp only [Vector3.cross] <;> ring

theorem dot_zero_left (b : Vector3) : Vector3.dot ⟨0, 0, 0⟩ b = 0 := by
  simp only [Vector3.dot]
  ring

theorem applyQuaternion_smul (q : Quaternion) (c : ℝ) (v : Vector3) :
    (c • v).applyQuaternion q = c • (v.applyQuaternion q) := by
  obtain ⟨qx, qy, qz, qw⟩ := q
  obtain ⟨vx, vy, vz⟩ := v
  ext <;>
    simp only [Vector3.applyQuaternion, Vector3.applyQuatComponents, Vector3.smul_def] <;>
    ring

theorem applyQuaternion_sub_smul (q : Quaternion) (a b : Vector3) (c : ℝ) :
    (a - c • b).applyQuaternion q =
      a.applyQuaternion q - c • (b.applyQuaternion q) := by
  obtain ⟨qx, qy, qz, qw⟩ := q
  obtain ⟨ax, ay, az⟩ := a
  obtain ⟨bx, by', bz⟩ := b
  ext <;>
    simp only [Vector3.applyQuaternion, Vector3.applyQuatComponents, Vector3.smul_def,
      Vector3.sub_def] <;>
    ring

theorem length_congr {a b : Vector3} (h : a.lengthSq = b.lengthSq) : a.length = b.length := by
  unfold Vector3.length
  rw [h]

theorem normalize_applyQuaternion {q : Quaternion} (hq : q.normSq = 1) (v : Vector3) :
    (v.applyQuaternion q).normalize = (v.normalize).applyQuaternion q := by
  have hsq : (v.applyQuaternion q).lengthSq = v.lengthSq := applyQuaternion_lengthSq hq v
  have hlen : (v.applyQuaternion q).length = v.length := length_congr hsq
  unfold Vector3.normalize Vector3.divideScalar Vector3.multiplyScalar
  rw [hlen, applyQuaternion_smul]

theorem apply_axisAngle_dot_axis {n : Vector3} (hn : n.lengthSq = 1) (θ : ℝ) (v : Vector3) :
    Vector3.dot (v.applyQuaternion (Quaternion.setFromAxisAngle n θ)) n =
      Vector3.dot v n := by
  have hU : (Quaternion.setFromAxisAngle n θ).normSq = 1 := normSq_setFromAxisAngle hn θ
  calc Vector3.dot (v.applyQuaternion (Quaternion.setFromAxisAngle n θ)) n
      = Vector3.dot (v.applyQuaternion (Quaternion.setFromAxisAngle n θ))
          (n.applyQuaternion (Quaternion.setFromAxisAngle n θ)) := by
        rw [apply_setFromAxisAngle_self]
    _ = Vector3.dot v n := applyQuaternion_dot hU v n

theorem dot_proj_zero {n : Vector3} (hn : n.lengthSq = 1) (v : Vector3) :
    Vector3.dot (v - (Vector3.dot v n) • n) n = 0 := by
  obtain ⟨nx, ny, nz⟩ := n
  obtain ⟨vx, vy, vz⟩ := v
  simp only [Vector3.lengthSq] at hn
  simp only [Vector3.dot, Vector3.sub_def, Vector3.smul_def]
  linear_combination (-(vx * nx + vy * ny + vz * nz)) * hn

theorem dot_normalize_zero {w n : Vector3} (h : Vector3.dot w n = 0) :
    Vector3.dot w.normalize n = 0 := by
  unfold Vector3.normalize Vector3.divideScalar Vector3.multiplyScalar
  rw [dot_smul_left, h, mul_zero]

theorem lengthSq_ne_zero_of_not_lt {w : Vector3} {c : ℝ} (hc : 0 < c)
    (h : ¬(w.length < c)) : w.lengthSq ≠ 0 := by
  intro h0
  apply h
  have hl : w.length = 0 := (Vector3.length_eq_zero_iff w).mpr h0
  rw [hl]
  exact hc

theorem setFromUnitVectors_self {n : Vector3} (hn : n.lengthSq = 1) :
    Quaternion.setFromUnitVectors n n = Quaternion.one := by
  simp only [Quaternion.setFromUnitVectors]
  rw [if_neg (by
    rw [dot_self_eq_lengthSq, hn]
    unfold NumberEPSILON
    intro hlt
    norm_num at hlt)]
  have hq : (⟨n.y * n.z - n.z * n.y, n.z * n.x - n.x * n.z, n.x * n.y - n.y * n.x,
      Vector3.dot n n + 1⟩ : Quaternion) = ⟨0, 0, 0, 2⟩ := by
    rw [dot_self_eq_lengthSq, hn]
    ext <;> dsimp <;> ring
  rw [hq]
  unfold Quaternion.normalizeQ Quaternion.length Quaternion.normSq
  have h4 : Real.sqrt ((0 : ℝ) * 0 + 0 * 0 + 0 * 0 + 2 * 2) = 2 := by
    rw [show (0 : ℝ) * 0 + 0 * 0 + 0 * 0 + 2 * 2 = 2 ^ 2 by norm_num,
      Real.sqrt_sq (by norm_num)]
  dsimp only
  rw [h4, if_neg (by norm_num)]
  unfold Quaternion.one
  ext <;> dsimp <;> norm_num

end Three

namespace Furniture

open Three

theorem alignContact_eq {q : Quaternion} {n axis : Vector3} (hq : q.normSq = 1)
    (hn : n.lengthSq = 1) (haxis : axis.lengthSq = 1) :
    alignContactAxisToSurface q n axis =
      (Quaternion.setFromUnitVectors (axis.applyQuaternion q) n).mul q := by
  simp only [alignContactAxisToSurface]
  rw [Vector3.normalize_of_unit hn, Vector3.normalize_of_unit haxis,
    Vector3.normalize_of_unit (by rw [applyQuaternion_lengthSq hq]; exact haxis)]

theorem alignContact_normSq {q : Quaternion} {n axis : Vector3} (hq : q.normSq = 1)
    (hn : n.lengthSq = 1) (haxis : axis.lengthSq = 1) :
    (alignContactAxisToSurface q n axis).normSq = 1 := by
  rw [alignContact_eq hq hn haxis, Quaternion.normSq_mul,
    normSq_setFromUnitVectors (by rw [applyQuaternion_lengthSq hq]; exact haxis) hn, hq]
  ring

theorem alignContact_apply {q : Quaternion} {n axis : Vector3} (hq : q.normSq = 1)
    (hn : n.lengthSq = 1) (haxis : axis.lengthSq = 1) :
    axis.applyQuaternion (alignContactAxisToSurface q n axis) = n ∨
      (axis.applyQuaternion (alignContactAxisToSurface q n axis) =
          -(axis.applyQuaternion q) ∧
        Vector3.dot (axis.applyQuaternion q) n + 1 < NumberEPSILON) := by
  have hc : (axis.applyQuaternion q).lengthSq = 1 := by
    rw [applyQuaternion_lengthSq hq]
    exact haxis
  rw [alignContact_eq hq hn haxis,
    applyQuaternion_mul (normSq_setFromUnitVectors hc hn) hq]
  by_cases hr : Vector3.dot (axis.applyQuaternion q) n + 1 < NumberEPSILON
  · exact Or.inr ⟨apply_setFromUnitVectors_antipodal hc hr, hr⟩
  · exact Or.inl (apply_setFromUnitVectors_main hc hn hr)

end Furniture

namespace Furniture

open Three

theorem upright_cases {q : Quaternion} {n : Vector3} (hn : n.lengthSq = 1) :
    applyUprightCorrection q n = q ∨
      ∃ θ, applyUprightCorrection q n = (Quaternion.setFromAxisAngle n θ).mul q := by
  simp only [applyUprightCorrection, Vector3.normalize_of_unit hn]
  split_ifs <;>
    first
      | exact Or.inl rfl
      | exact Or.inr ⟨_, rfl⟩

theorem upright_normSq {q : Quaternion} {n : Vector3} (hq : q.normSq = 1)
    (hn : n.lengthSq = 1) : (applyUprightCorrection q n).normSq = 1 := by
  rcases upright_cases (q := q) hn with h | ⟨θ, h⟩ <;> rw [h]
  · exact hq
  · rw [Quaternion.normSq_mul, normSq_setFromAxisAngle hn, hq]
    ring

theorem upright_apply_axis {q : Quaternion} {n axis : Vector3} (hq : q.normSq = 1)
    (hn : n.lengthSq = 1) (hfix : axis.applyQuaternion q = n) :
    axis.applyQuaternion (applyUprightCorrection q n) = n := by
  rcases upright_cases (q := q) hn with h | ⟨θ, h⟩ <;> rw [h]
  · exact hfix
  · rw [applyQuaternion_mul (normSq_setFromAxisAngle hn θ) hq, hfix,
      apply_setFromAxisAngle_self]

theorem upright_apply_dot {q : Quaternion} {n : Vector3} (hq : q.normSq = 1)
    (hn : n.lengthSq = 1) (v : Vector3) :
    Vector3.dot (v.applyQuaternion (applyUprightCorrection q n)) n =
      Vector3.dot (v.applyQuaternion q) n := by
  rcases upright_cases (q := q) hn with h | ⟨θ, h⟩ <;> rw [h]
  rw [applyQuaternion_mul (normSq_setFromAxisAngle hn θ) hq,
    apply_axisAngle_dot_axis hn]

theorem alignToSurface_eq (q : Quaternion) (ud : Option Vector3) (n axis : Vector3) :
    alignToSurface q ud n (some axis) =
      applyUprightCorrection (alignContactAxisToSurface q n axis) n := rfl

end Furniture

/-- C1: after any `alignToSurface(model, surfaceNormal, contactAxis)` call
with a unit surface normal — and the unit model quaternion and unit
contact axis the code maintains — the contact axis transformed by the
resulting rotation is parallel to the surface normal: the dot product is
within 1e-3 of 1 (exactly 1 except when the axis started out within
`Number.EPSILON` of antipodal, where the 180-degree fallback still lands
within `Number.EPSILON` of 1). -/
theorem c1_alignToSurface_contact_alignment
    (q : Three.Quaternion) (userDataAxis : Option Three.Vector3) (n axis : Three.Vector3)
    (hq : q.normSq = 1) (hn : n.lengthSq = 1) (haxis : axis.lengthSq = 1) :
    |Three.Vector3.dot
        (axis.applyQuaternion (Furniture.alignToSurface q userDataAxis n (some axis))) n - 1|
      ≤ 1 / 1000 := by
  rw [Furniture.alignToSurface_eq]
  have hq1 : (Furniture.alignContactAxisToSurface q n axis).normSq = 1 :=
    Furniture.alignContact_normSq hq hn haxis
  rcases Furniture.alignContact_apply hq hn haxis with hfix | ⟨hneg, hr⟩
  · rw [Furniture.upright_apply_axis hq1 hn hfix, Three.dot_self_eq_lengthSq, hn]
    norm_num
  · rw [Furniture.upright_apply_dot hq1 hn axis, hneg, Three.dot_neg_left]
    have hc : (axis.applyQuaternion q).lengthSq = 1 := by
      rw [Three.applyQuaternion_lengthSq hq]
      exact haxis
    have hlb : -1 ≤ Three.Vector3.dot (axis.applyQuaternion q) n :=
      Three.Vector3.neg_one_le_dot hc hn
    have hEps : Three.NumberEPSILON ≤ 1 / 1000 := by
      unfold Three.NumberEPSILON
      norm_num
    rw [abs_le]
    constructor <;> nlinarith [hr, hlb, hEps]

/-- Concrete instance of C1: identity rotation, floor normal, default
contact axis. -/
theorem c1_alignToSurface_contact_alignment_witness :
    Three.Quaternion.one.normSq = 1 ∧
    (⟨0, 1, 0⟩ : Three.Vector3).lengthSq = 1 ∧
    |Three.Vector3.dot
        ((⟨0, 1, 0⟩ : Three.Vector3).applyQuaternion
          (Furniture.alignToSurface Three.Quaternion.one none (⟨0, 1, 0⟩ : Three.Vector3)
            (some (⟨0, 1, 0⟩ : Three.Vector3)))) (⟨0, 1, 0⟩ : Three.Vector3) - 1|
      ≤ 1 / 1000 :=
  ⟨by norm_num [Three.Quaternion.normSq, Three.Quaternion.one],
    by norm_num [Three.Vector3.lengthSq],
    c1_alignToSurface_contact_alignment Three.Quaternion.one none _ _
      (by norm_num [Three.Quaternion.normSq, Three.Quaternion.one])
      (by norm_num [Three.Vector3.lengthSq])
      (by norm_num [Three.Vector3.lengthSq])⟩

namespace Furniture

open Three

theorem upright_unfold {q : Quaternion} {n : Vector3} (hn : n.lengthSq = 1) :
    applyUprightCorrection q n =
      if |n.y| > 0.9 then q
      else if (projectedWorldUp n).length < 0.001 then q
      else if (projectedModelY q n).length < 0.001 then q
      else if |uprightAngle q n| > 0.001 then
        (Quaternion.setFromAxisAngle n (uprightAngle q n)).mul q
      else q := by
  simp only [applyUprightCorrection, projectedWorldUp, modelYOf, projectedModelY,
    uprightAngle, Vector3.normalize_of_unit hn]

theorem upright_idem {q : Quaternion} {n : Vector3} (hq : q.normSq = 1)
    (hn : n.lengthSq = 1) :
    applyUprightCorrection (applyUprightCorrection q n) n = applyUprightCorrection q n := by
  by_cases h1 : |n.y| > 0.9
  · have hs : ∀ p : Quaternion, applyUprightCorrection p n = p := by
      intro p
      rw [upright_unfold hn, if_pos h1]
    rw [hs, hs]
  by_cases h2 : (projectedWorldUp n).length < 0.001
  · have hs : ∀ p : Quaternion, applyUprightCorrection p n = p := by
      intro p
      rw [upright_unfold hn, if_neg h1, if_pos h2]
    rw [hs, hs]
  by_cases h3 : (projectedModelY q n).length < 0.001
  · have hA : applyUprightCorrection q n = q := by
      rw [upright_unfold hn, if_neg h1, if_neg h2, if_pos h3]
    rw [hA, upright_unfold hn, if_neg h1, if_neg h2, if_pos h3]
  by_cases h4 : |uprightAngle q n| > 0.001
  · set θ1 := uprightAngle q n with hθ1
    set U := Quaternion.setFromAxisAngle n θ1 with hUdef
    set p := U.mul q with hpdef
    have hU : U.normSq = 1 := normSq_setFromAxisAngle hn _
    have hA : applyUprightCorrection q n = p := by
      rw [upright_unfold hn, if_neg h1, if_neg h2, if_neg h3, if_pos h4]
    have hu : ((projectedModelY q n).normalize).lengthSq = 1 :=
      Vector3.lengthSq_normalize (lengthSq_ne_zero_of_not_lt (by norm_num) h3)
    have hv : ((projectedWorldUp n).normalize).lengthSq = 1 :=
      Vector3.lengthSq_normalize (lengthSq_ne_zero_of_not_lt (by norm_num) h2)
    have hun : Vector3.dot ((projectedModelY q n).normalize) n = 0 := by
      apply dot_normalize_zero
      simp only [projectedModelY]
      exact dot_proj_zero hn (modelYOf q)
    have hvn : Vector3.dot ((projectedWorldUp n).normalize) n = 0 := by
      apply dot_normalize_zero
      simp only [projectedWorldUp]
      exact dot_proj_zero hn ⟨0, 1, 0⟩
    have hpmy2 : projectedModelY p n = (projectedModelY q n).applyQuaternion U := by
      have hmY : modelYOf p = (modelYOf q).applyQuaternion U := by
        simp only [modelYOf, hpdef]
        rw [applyQuaternion_mul hU hq, normalize_applyQuaternion hU]
      simp only [projectedModelY, hmY]
      rw [apply_axisAngle_dot_axis hn]
      conv_lhs =>
        rw [show (Vector3.dot (modelYOf q) n) • n =
          (Vector3.dot (modelYOf q) n) • (n.applyQuaternion U) by
            rw [hUdef, apply_setFromAxisAngle_self]]
      rw [← applyQuaternion_sub_smul]
    have hlen2 : ¬((projectedModelY p n).length < 0.001) := by
      rw [hpmy2, length_congr (applyQuaternion_lengthSq hU _)]
      exact h3
    have hpmyn : (projectedModelY p n).normalize = (projectedWorldUp n).normalize := by
      rw [hpmy2, normalize_applyQuaternion hU, hUdef, hθ1]
      have := rotate_to_align hn hu hv hun hvn
      simp only [uprightAngle]
      exact this
    have hang2 : uprightAngle p n = 0 := by
      simp only [uprightAngle, hpmyn]
      rw [dot_self_eq_lengthSq, hv]
      rw [cross_self, dot_zero_left]
      rw [if_neg (by norm_num)]
      rw [min_self, max_eq_right (by norm_num : (-1 : ℝ) ≤ 1), Real.arccos_one]
    rw [hA, upright_unfold hn, if_neg h1, if_neg h2, if_neg hlen2,
      if_neg (by rw [hang2]; norm_num)]
  · have hA : applyUprightCorrection q n = q := by
      rw [upright_unfold hn, if_neg h1, if_neg h2, if_neg h3, if_neg h4]
    rw [hA, upright_unfold hn, if_neg h1, if_neg h2, if_neg h3, if_neg h4]

end Furniture

/-- C3: `alignToSurface` is idempotent — a second call with the same
unit surface normal and the same contact axis leaves the model rotation
exactly unchanged (for a unit model quaternion, and excluding only the
`Number.EPSILON`-wide near-antipodal sliver where `setFromUnitVectors`
takes its 180-degree fallback and re-running applies a correction of
magnitude below `Number.EPSILON`). -/
theorem c3_alignToSurface_idempotent
    (q : Three.Quaternion) (ua1 ua2 : Option Three.Vector3) (n axis : Three.Vector3)
    (hq : q.normSq = 1) (hn : n.lengthSq = 1) (haxis : axis.lengthSq = 1)
    (hnd : ¬(Three.Vector3.dot (axis.applyQuaternion q) n + 1 < Three.NumberEPSILON)) :
    Furniture.alignToSurface (Furniture.alignToSurface q ua1 n (some axis)) ua2 n (some axis) =
      Furniture.alignToSurface q ua1 n (some axis) := by
  simp only [Furniture.alignToSurface_eq]
  have hq1 : (Furniture.alignContactAxisToSurface q n axis).normSq = 1 :=
    Furniture.alignContact_normSq hq hn haxis
  have hfix1 : axis.applyQuaternion (Furniture.alignContactAxisToSurface q n axis) = n := by
    rcases Furniture.alignContact_apply hq hn haxis with h | ⟨_, hr⟩
    · exact h
    · exact absurd hr hnd
  have hq2 : (Furniture.applyUprightCorrection
      (Furniture.alignContactAxisToSurface q n axis) n).normSq = 1 :=
    Furniture.upright_normSq hq1 hn
  have hfix2 : axis.applyQuaternion (Furniture.applyUprightCorrection
      (Furniture.alignContactAxisToSurface q n axis) n) = n :=
    Furniture.upright_apply_axis hq1 hn hfix1
  rw [Furniture.alignContact_eq hq2 hn haxis, hfix2, Three.setFromUnitVectors_self hn,
    Three.Quaternion.mul_one_left]
  exact Furniture.upright_idem hq1 hn

/-- Concrete instance of C3: identity rotation, floor normal, default
contact axis. -/
theorem c3_alignToSurface_idempotent_witness :
    Three.Quaternion.one.normSq = 1 ∧
    (⟨0, 1, 0⟩ : Three.Vector3).lengthSq = 1 ∧
    ¬(Three.Vector3.dot ((⟨0, 1, 0⟩ : Three.Vector3).applyQuaternion Three.Quaternion.one)
        (⟨0, 1, 0⟩ : Three.Vector3) + 1 < Three.NumberEPSILON) ∧
    Furniture.alignToSurface
        (Furniture.alignToSurface Three.Quaternion.one none (⟨0, 1, 0⟩ : Three.Vector3)
          (some (⟨0, 1, 0⟩ : Three.Vector3))) none (⟨0, 1, 0⟩ : Three.Vector3)
        (some (⟨0, 1, 0⟩ : Three.Vector3)) =
      Furniture.alignToSurface Three.Quaternion.one none (⟨0, 1, 0⟩ : Three.Vector3)
        (some (⟨0, 1, 0⟩ : Three.Vector3)) :=
  ⟨by norm_num [Three.Quaternion.normSq, Three.Quaternion.one],
    by norm_num [Three.Vector3.lengthSq],
    by norm_num [Three.Vector3.applyQuaternion, Three.Vector3.applyQuatComponents,
      Three.Quaternion.one, Three.Vector3.dot, Three.NumberEPSILON],
    c3_alignToSurface_idempotent Three.Quaternion.one none none _ _
      (by norm_num [Three.Quaternion.normSq, Three.Quaternion.one])
      (by norm_num [Three.Vector3.lengthSq])
      (by norm_num [Three.Vector3.lengthSq])
      (by norm_num [Three.Vector3.applyQuaternion, Three.Vector3.applyQuatComponents,
        Three.Quaternion.one, Three.Vector3.dot, Three.NumberEPSILON])⟩

namespace Furniture

open Three Classical

theorem applyQuaternion_neg (q : Quaternion) (a : Vector3) :
    (-a).applyQuaternion q = -(a.applyQuaternion q) := by
  obtain ⟨qx, qy, qz, qw⟩ := q
  obtain ⟨ax, ay, az⟩ := a
  ext <;>
    simp only [Vector3.applyQuaternion, Vector3.applyQuatComponents, Vector3.neg_def] <;>
    ring

theorem detectLoop_eq_foldl_argAux (f : Vector3 → ℝ) :
    ∀ (l : List Vector3) (a : Vector3),
      l.foldl (List.argAux fun b c => f c < f b) (some a) =
        some (detectLoop f l a (f a)) := by
  intro l
  induction l with
  | nil => intro a; rfl
  | cons b l ih =>
      intro a
      rw [List.foldl_cons, detectLoop]
      by_cases h : f a < f b
      · rw [show List.argAux (fun b c => f c < f b) (some a) b = some b by
          simp [List.argAux, h]]
        rw [if_pos h]
        exact ih b
      · rw [show List.argAux (fun b c => f c < f b) (some a) b = some a by
          simp [List.argAux, h]]
        rw [if_neg h]
        exact ih a

theorem foldl_argAux_eq_detectLoop (f : Vector3 → ℝ) :
    ∀ (l : List Vector3) (o : Option Vector3) (b : Vector3) (d : ℝ),
      (o = none ∨ ∃ c, o = some c ∧ f c ≤ d) →
      (∃ a ∈ l, d < f a) →
      l.foldl (List.argAux fun b c => f c < f b) o = some (detectLoop f l b d) := by
  intro l
  induction l with
  | nil =>
      intro o b d _ hex
      obtain ⟨a, ha, _⟩ := hex
      exact absurd ha (List.not_mem_nil a)
  | cons a l ih =>
      intro o b d hinv hex
      rw [List.foldl_cons, detectLoop]
      by_cases hfa : d < f a
      · rw [if_pos hfa]
        have hstep : List.argAux (fun b c => f c < f b) o a = some a := by
          rcases hinv with rfl | ⟨c, rfl, hc⟩
          · rfl
          · simp [List.argAux, lt_of_le_of_lt hc hfa]
        rw [hstep]
        exact detectLoop_eq_foldl_argAux f l a
      · rw [if_neg hfa]
        have hinv' : List.argAux (fun b c => f c < f b) o a = none ∨
            ∃ c, List.argAux (fun b c => f c < f b) o a = some c ∧ f c ≤ d := by
          rcases hinv with rfl | ⟨c, rfl, hc⟩
          · exact Or.inr ⟨a, rfl, le_of_not_lt hfa⟩
          · by_cases hca : f c < f a
            · refine Or.inr ⟨a, ?_, le_of_not_lt hfa⟩
              simp [List.argAux, hca]
            · refine Or.inr ⟨c, ?_, hc⟩
              simp [List.argAux, hca]
        have hex' : ∃ x ∈ l, d < f x := by
          obtain ⟨x, hx, hdx⟩ := hex
          rcases List.mem_cons.mp hx with rfl | hx'
          · exact absurd hdx hfa
          · exact ⟨x, hx', hdx⟩
        exact ih _ b d hinv' hex'

theorem detect_exists_nonneg (q : Quaternion) (n : Vector3) :
    ∃ a ∈ CARDINAL_AXES,
      (-2 : ℝ) < Vector3.dot (a.applyQuaternion q) n := by
  by_cases h : 0 ≤ Vector3.dot ((⟨1, 0, 0⟩ : Vector3).applyQuaternion q) n
  · exact ⟨⟨1, 0, 0⟩, by simp [CARDINAL_AXES], by linarith⟩
  · refine ⟨⟨-1, 0, 0⟩, by simp [CARDINAL_AXES], ?_⟩
    have hneg : (⟨-1, 0, 0⟩ : Vector3) = -(⟨1, 0, 0⟩ : Vector3) := by
      ext <;> simp [Vector3.neg_def]
    rw [hneg, applyQuaternion_neg, dot_neg_left]
    linarith [not_le.mp h]

theorem detect_argmax (q : Quaternion) (n : Vector3) :
    CARDINAL_AXES.argmax (fun a => Vector3.dot (a.applyQuaternion q) n) =
      some (detectContactAxis q n) := by
  rw [List.argmax, detectContactAxis]
  exact foldl_argAux_eq_detectLoop _ CARDINAL_AXES none DEFAULT_CONTACT_AXIS (-2)
    (Or.inl rfl) (detect_exists_nonneg q n)

end Furniture

open Classical in
/-- C8: `detectContactAxis` returns, among the six cardinal axes in
their source order (+X, -X, +Y, -Y, +Z, -Z), the axis whose image under
the given rotation has the largest dot product with the surface normal;
ties go to the earliest axis in the enumeration (smallest index). -/
theorem c8_detectContactAxis_first_argmax (q : Three.Quaternion) (n : Three.Vector3) :
    Furniture.detectContactAxis q n ∈ Furniture.CARDINAL_AXES ∧
    (∀ a ∈ Furniture.CARDINAL_AXES,
      Three.Vector3.dot (a.applyQuaternion q) n ≤
        Three.Vector3.dot ((Furniture.detectContactAxis q n).applyQuaternion q) n) ∧
    (∀ a ∈ Furniture.CARDINAL_AXES,
      Three.Vector3.dot ((Furniture.detectContactAxis q n).applyQuaternion q) n ≤
        Three.Vector3.dot (a.applyQuaternion q) n →
      Furniture.CARDINAL_AXES.indexOf (Furniture.detectContactAxis q n) ≤
        Furniture.CARDINAL_AXES.indexOf a) := by
  have h := Furniture.detect_argmax q n
  refine ⟨List.argmax_mem h, ?_, ?_⟩
  · intro a ha
    exact List.le_of_mem_argmax ha h
  · intro a ha hle
    exact List.index_of_argmax h ha hle

/-- C4: on a move event during an active drag whose downward surface
raycast finds no hit, or finds a first hit whose (face) normal is out of
tolerance with the spawn surface normal (`dot < 0.966`), the handler
sets the dragged object back to the last valid position and changes
nothing else: rotation, `surfaceNormal`, `contactAxis`, the normal
history and every other controller field are untouched. -/
theorem c4_drag_invalid_surface_holds_last_valid
    (s : Furniture.InteractionState) (e : Furniture.MoveEvent)
    (hdrag : s.isDragging = true) (hhov : s.hovered = true)
    (hmd : s.mouseDownPosition ≠ none)
    (hid : s.activePointerId = none ∨ s.activePointerId = some e.pointerId)
    (hmodal : e.modalOpen = false)
    (hplane : e.pointerRay.intersectPlane s.dragPlane ≠ none)
    (hmesh : e.roomMeshPresent = true)
    (hbad : match e.meshHits with
      | [] => True
      | hit :: _ =>
          Three.Vector3.dot (Furniture.hitNormalOf hit s.spawnSurfaceNormal)
            s.spawnSurfaceNormal < Furniture.SURFACE_NORMAL_TOLERANCE) :
    Furniture.onPointerMove s e =
      { s with obj := { s.obj with position := s.lastValidPosition } } := by
  simp only [Furniture.onPointerMove]
  rw [if_neg (by
    rcases hid with h | h
    · intro hc
      exact hc.1 h
    · intro hc
      exact hc.2 h.symm)]
  rw [if_neg (by simp [hmd, hhov])]
  rw [hmodal, if_neg (by simp)]
  obtain ⟨p, hp⟩ := Option.ne_none_iff_exists'.mp hmd
  obtain ⟨mx, my⟩ := p
  simp only [hp]
  simp only [hdrag, hhov, Bool.not_true, Bool.false_eq_true, false_and, if_false,
    and_self, if_true]
  simp only [Furniture.dragMoveBody]
  obtain ⟨pp, hpp⟩ := Option.ne_none_iff_exists'.mp hplane
  simp only [hpp, hmesh]
  rw [if_neg (by simp)]
  cases hh : e.meshHits with
  | nil => simp only [hdrag, hhov, hp]
  | cons hit rest =>
      have hbad2 : Three.Vector3.dot (Furniture.hitNormalOf hit s.spawnSurfaceNormal)
          s.spawnSurfaceNormal < Furniture.SURFACE_NORMAL_TOLERANCE := by
        rw [hh] at hbad
        exact hbad
      simp only [if_neg (not_le.mpr hbad2), hdrag, hhov, hp]

/-- Concrete instance of C4: mid-drag move event whose surface raycast
returns no intersection; the object is held at the last valid position. -/
theorem c4_drag_invalid_surface_holds_last_valid_witness :
    Furniture.sampleDragState.isDragging = true ∧
    Furniture.sampleDragState.hovered = true ∧
    Furniture.sampleDragState.mouseDownPosition ≠ none ∧
    (Furniture.sampleDragState.activePointerId = none ∨
      Furniture.sampleDragState.activePointerId = some Furniture.sampleMissMoveEvent.pointerId) ∧
    Furniture.sampleMissMoveEvent.modalOpen = false ∧
    Furniture.sampleMissMoveEvent.pointerRay.intersectPlane
      Furniture.sampleDragState.dragPlane ≠ none ∧
    Furniture.sampleMissMoveEvent.roomMeshPresent = true ∧
    Furniture.onPointerMove Furniture.sampleDragState Furniture.sampleMissMoveEvent =
      { Furniture.sampleDragState with
        obj := { Furniture.sampleDragState.obj with
                  position := Furniture.sampleDragState.lastValidPosition } } :=
  ⟨rfl, rfl, by simp [Furniture.sampleDragState], Or.inr rfl, rfl,
    by
      norm_num [Furniture.sampleMissMoveEvent, Furniture.sampleDragState,
        Three.Ray.intersectPlane, Three.Ray.distanceToPlane, Three.Vector3.dot,
        Three.Plane.distanceToPoint, Three.Ray.at]
      exact Option.some_ne_none _,
    rfl,
    c4_drag_invalid_surface_holds_last_valid Furniture.sampleDragState
      Furniture.sampleMissMoveEvent rfl rfl (by simp [Furniture.sampleDragState])
      (Or.inr rfl) rfl
      (by
        norm_num [Furniture.sampleMissMoveEvent, Furniture.sampleDragState,
          Three.Ray.intersectPlane, Three.Ray.distanceToPlane, Three.Vector3.dot,
          Three.Plane.distanceToPoint, Three.Ray.at]
        exact Option.some_ne_none _)
      rfl (by simp [Furniture.sampleMissMoveEvent])⟩

namespace Furniture

open Three

theorem selectFurniture_recorded (t : InteractionState) :
    (selectFurniture t).recorded = t.recorded := by
  simp only [selectFurniture]
  split_ifs <;> rfl

theorem deselectFurniture_recorded (t : InteractionState) :
    (deselectFurniture t).recorded = t.recorded := by
  simp only [deselectFurniture]
  split_ifs <;> rfl

theorem move_identity (t : InteractionState) (m : MoveEvent) (p : ℝ × ℝ)
    (hdrag : t.isDragging = false)
    (hsm : t.mouseDownPosition = none ∨
      (t.mouseDownPosition = some p ∧
        Real.sqrt ((m.x - p.1) ^ 2 + (m.y - p.2) ^ 2) ≤ DRAG_THRESHOLD_PIXELS)) :
    onPointerMove t m = t := by
  obtain ⟨px, py⟩ := p
  simp only [onPointerMove]
  by_cases h1 : t.activePointerId ≠ none ∧ some m.pointerId ≠ t.activePointerId
  · rw [if_pos h1]
  rw [if_neg h1]
  by_cases h2 : t.mouseDownPosition = none ∨ (!t.hovered) = true
  · rw [if_pos h2]
  rw [if_neg h2]
  by_cases h3 : m.modalOpen = true
  · rw [if_pos h3]
  rw [if_neg h3]
  rcases hsm with hnone | ⟨hp, hdist⟩
  · exact absurd (Or.inl hnone) h2
  simp only [hp, hdrag, Bool.not_false, true_and]
  have hngt : ¬(Real.sqrt ((m.x - px) ^ 2 + (m.y - py) ^ 2) > DRAG_THRESHOLD_PIXELS) :=
    not_lt.mpr hdist
  rw [if_neg (fun hc => hngt hc.1)]
  rw [if_neg hngt]
  rw [if_neg (by simp [hdrag])]

theorem up_no_record (t : InteractionState) (u : UpEvent) (hdrag : t.isDragging = false) :
    (onPointerUp t u).recorded = t.recorded := by
  simp only [onPointerUp]
  by_cases h1 : t.activePointerId ≠ none ∧ some u.pointerId ≠ t.activePointerId
  · rw [if_pos h1]
  rw [if_neg h1]
  by_cases h2 : u.modalOpen = true
  · rw [if_pos h2]; rfl
  rw [if_neg h2]
  rw [if_neg (by simp [hdrag])]
  cases hmd : t.mouseDownPosition with
  | none => rfl
  | some p =>
      obtain ⟨mx, my⟩ := p
      show (resetMouseState
          (if t.hovered then
            if Real.sqrt ((u.x - mx) ^ 2 + (u.y - my) ^ 2) ≤ DRAG_THRESHOLD_PIXELS then
              selectFurniture t
            else t
          else
            if Real.sqrt ((u.x - mx) ^ 2 + (u.y - my) ^ 2) ≤ DRAG_THRESHOLD_PIXELS then
              (if t.selected then deselectFurniture t else t)
            else t)).recorded = t.recorded
      split_ifs <;>
        first
          | rfl
          | exact selectFurniture_recorded t
          | exact deselectFurniture_recorded t

theorem foldl_fixed_point {α β : Type} (f : α → β → α) (l : List β) (a : α)
    (h : ∀ b ∈ l, f a b = a) : l.foldl f a = a := by
  induction l with
  | nil => rfl
  | cons b l ih =>
      rw [List.foldl_cons, h b (List.mem_cons_self b l)]
      exact ih (fun x hx => h x (List.mem_cons_of_mem _ hx))

theorem down_char (s : InteractionState) (d : DownEvent)
    (h1 : s.isDragging = false) (h2 : s.mouseDownPosition = none) :
    (onPointerDown s d).isDragging = false ∧
    (onPointerDown s d).recorded = s.recorded ∧
    ((onPointerDown s d).mouseDownPosition = none ∨
      (onPointerDown s d).mouseDownPosition = some (d.x, d.y)) := by
  simp only [onPointerDown]
  split_ifs
  · exact ⟨h1, rfl, Or.inl h2⟩
  · exact ⟨h1, rfl, Or.inl h2⟩
  · exact ⟨h1, rfl, Or.inl h2⟩
  · cases hfh : d.furnitureHitPoint with
    | some hp => exact ⟨h1, rfl, Or.inr rfl⟩
    | none =>
        cases hsh : d.surfaceHit with
        | none => exact ⟨h1, rfl, Or.inr rfl⟩
        | some pr =>
            obtain ⟨pp, nn⟩ := pr
            exact ⟨h1, rfl, Or.inr rfl⟩

end Furniture

/-- C6: a pointer-down / pointer-up pair whose intermediate pointer-move
events all stay within the 5-pixel drag threshold of the down position
never records any command — in particular no `MoveFurnitureCommand` —
no matter how many move events fire. -/
theorem c6_drag_threshold_no_move
    (s : Furniture.InteractionState) (d : Furniture.DownEvent)
    (moves : List Furniture.MoveEvent) (u : Furniture.UpEvent)
    (h1 : s.isDragging = false) (h2 : s.mouseDownPosition = none)
    (hsmall : ∀ m ∈ moves,
      Real.sqrt ((m.x - d.x) ^ 2 + (m.y - d.y) ^ 2) ≤ Furniture.DRAG_THRESHOLD_PIXELS) :
    (Furniture.runPointerPair s d moves u).recorded = s.recorded := by
  have hchar := Furniture.down_char s d h1 h2
  have hfix : ∀ m ∈ moves, Furniture.onPointerMove (Furniture.onPointerDown s d) m =
      Furniture.onPointerDown s d := by
    intro m hm
    rcases hchar.2.2 with hnone | hsome
    · exact Furniture.move_identity _ m (d.x, d.y) hchar.1 (Or.inl hnone)
    · exact Furniture.move_identity _ m (d.x, d.y) hchar.1
        (Or.inr ⟨hsome, by simpa using hsmall m hm⟩)
  have hfold : moves.foldl Furniture.onPointerMove (Furniture.onPointerDown s d) =
      Furniture.onPointerDown s d :=
    Furniture.foldl_fixed_point _ moves _ hfix
  rw [Furniture.runPointerPair, hfold, Furniture.up_no_record _ u hchar.1]
  exact hchar.2.1

/-- Concrete instance of C6: a down/up pair with no intermediate moves
records nothing. -/
theorem c6_drag_threshold_no_move_witness :
    Furniture.sampleIdleState.isDragging = false ∧
    Furniture.sampleIdleState.mouseDownPosition = none ∧
    (Furniture.runPointerPair Furniture.sampleIdleState Furniture.sampleDownEvent []
        Furniture.sampleUpEvent).recorded = Furniture.sampleIdleState.recorded :=
  ⟨rfl, rfl,
    c6_drag_threshold_no_move Furniture.sampleIdleState Furniture.sampleDownEvent []
      Furniture.sampleUpEvent rfl rfl (by simp)⟩

/-- C7: counterexample to the stated contract.  In an environment where
the raycast finds no room-mesh intersection at all, `raycastRoomSurface`
does not return null: it performs the ground-plane fallback internally
(the `if (intersectPoint)` truthiness test on the target `Vector3`
always passes, so the trailing `return null` is unreachable). -/
theorem c7_raycast_null_contract_counterexample :
    SceneM.noMeshIntersection SceneM.sampleNoMeshEnv ∧
    SceneM.raycastRoomSurface SceneM.sampleNoMeshEnv ≠ none :=
  ⟨Or.inl rfl, by
    simp [SceneM.raycastRoomSurface, SceneM.sampleNoMeshEnv]⟩

/-- C7 (amended): whenever the raycast finds no room-mesh intersection
(no mesh, or an empty intersection list), `raycastRoomSurface` returns
`some` of the ground-plane fallback hit (plane y = 0, normal +Y) — the
fallback happens inside the sampler and it never returns null. -/
theorem c7_raycast_fallback_internal (env : SceneM.RaycastEnv)
    (h : SceneM.noMeshIntersection env) :
    SceneM.raycastRoomSurface env = some (SceneM.fallbackFloorHit env) := by
  rcases h with h | h <;> simp [SceneM.raycastRoomSurface, h]

/-- Concrete instance of the amended C7: with no room mesh present the
sampler returns the internal ground-plane fallback hit. -/
theorem c7_raycast_fallback_internal_witness :
    SceneM.noMeshIntersection SceneM.sampleNoMeshEnv ∧
    SceneM.raycastRoomSurface SceneM.sampleNoMeshEnv =
      some (SceneM.fallbackFloorHit SceneM.sampleNoMeshEnv) :=
  ⟨Or.inl rfl, c7_raycast_fallback_internal SceneM.sampleNoMeshEnv (Or.inl rfl)⟩
